import Mathlib

/-!
Verification of the iterative multi-agent build controller of this
repository (`file_aware_agent.py`, `test_executor.py`) against its
natural-language specification.

The Python code is shallowly embedded: every definition below is a direct
translation of the corresponding Python function, over `List Char` for
strings where character-level scanning matters.  Python regular expressions
are compiled by hand into the deterministic scanners they denote (the
patterns involved backtrack only in ways that collapse to a deterministic
scan; this is argued in the doc comment of each scanner).  File-system
state is a finite map from resolved path components to file contents plus
the set of existing directories; `..` components are resolved the way the
operating system resolves them on write.  I/O faults (permissions, disk
full) are not modelled: a write to a location whose parent directory
exists always succeeds, which matches every behaviour the claims quantify
over.
-/

/-! ## Python string primitives -/

/-- The whitespace class of Python's `str.strip()` and of `\s` in `re`
(ASCII part): space, tab, newline, carriage return, vertical tab, form feed. -/
def pySpace (c : Char) : Bool :=
  c = ' ' || c = '\t' || c = '\n' || c = '\r' || c = '\x0b' || c = '\x0c'

/-- Python `str.lower()` restricted to ASCII: each of `A`..`Z` maps to its
lowercase counterpart, every other character is unchanged.  (Python also
lowers some non-ASCII letters; every string this system matches against is
ASCII, so the restriction is faithful on all inputs that matter.) -/
def charLower (c : Char) : Char :=
  if c = 'A' then 'a' else if c = 'B' then 'b' else if c = 'C' then 'c'
  else if c = 'D' then 'd' else if c = 'E' then 'e' else if c = 'F' then 'f'
  else if c = 'G' then 'g' else if c = 'H' then 'h' else if c = 'I' then 'i'
  else if c = 'J' then 'j' else if c = 'K' then 'k' else if c = 'L' then 'l'
  else if c = 'M' then 'm' else if c = 'N' then 'n' else if c = 'O' then 'o'
  else if c = 'P' then 'p' else if c = 'Q' then 'q' else if c = 'R' then 'r'
  else if c = 'S' then 's' else if c = 'T' then 't' else if c = 'U' then 'u'
  else if c = 'V' then 'v' else if c = 'W' then 'w' else if c = 'X' then 'x'
  else if c = 'Y' then 'y' else if c = 'Z' then 'z' else c

/-- Python `str.lower()` on a whole string (ASCII, see `charLower`). -/
def pyLower (s : String) : String := String.mk (s.data.map charLower)

/-- Whether `n` is a prefix of `h` (decidable, over any type with
decidable equality).  Used both for `List Char` and `List String`. -/
def startsWithG {α : Type} [DecidableEq α] : List α → List α → Bool
  | [], _ => true
  | _ :: _, [] => false
  | a :: as, b :: bs => a = b && startsWithG as bs

/-- Python's substring test `n in h` on character lists: `n` occurs
contiguously somewhere in `h`. -/
def strIn (n : List Char) : List Char → Bool
  | [] => n.isEmpty
  | h :: t => startsWithG n (h :: t) || strIn n t

/-- Python's substring test `needle in hay` on strings. -/
def strInS (needle hay : String) : Bool := strIn needle.data hay.data

/-- Drop trailing characters satisfying `pySpace`. -/
def dropTrailingSpace (l : List Char) : List Char :=
  ((l.reverse.dropWhile pySpace)).reverse

/-- Python `str.strip()` (with no argument) on a character list. -/
def pyStripL (l : List Char) : List Char :=
  dropTrailingSpace (l.dropWhile pySpace)

/-- Python `str.strip()` on a string. -/
def pyStripS (s : String) : String := String.mk (pyStripL s.data)

/-! ## `FileAwareAgent._is_completion_signal` (file_aware_agent.py 286-326) -/

/-- The `completion_keywords` list of `_is_completion_signal`, verbatim. -/
def completion_keywords : List String :=
  ["project is complete",
   "task is complete",
   "implementation is complete",
   "all requirements met",
   "no further improvements needed",
   "ready for deployment",
   "ready to deploy",
   "fully implemented",
   "everything is working",
   "all tests passing",
   "no issues found",
   "project complete",
   "task complete",
   "TASK_DONE",
   "project finished",
   "implementation finished"]

/-- `FileAwareAgent._is_completion_signal`: lowercase the response, return
true if any keyword of `completion_keywords` occurs in the lowered text
(each keyword is used verbatim, not lowered), else true if `"no more"`
occurs together with one of `changes`/`improvements`/`updates`/
`modifications`, else false. -/
def is_completion_signal (response : String) : Bool :=
  let response_lower := pyLower response
  if completion_keywords.any (fun k => strInS k response_lower) then true
  else if strInS "no more" response_lower &&
      (["changes", "improvements", "updates", "modifications"].any
        (fun w => strInS w response_lower)) then true
  else false

example : is_completion_signal "The PROJECT IS COMPLETE now." = true := by decide
example : is_completion_signal "TASK_DONE" = false := by decide
example : is_completion_signal "There are no more changes needed." = true := by decide
example : is_completion_signal "Still working on it." = false := by decide

/-! ## `FileAwareAgent._extract_file_blocks` (file_aware_agent.py 372-422)

The block pattern is
`r'```(?:filename|update|read):\s*(\S+)\s*\n(.*?)```'` with `re.DOTALL`,
run through `re.findall`.  The pattern is deterministic once unwound:

* after the literal fence and marker, the first `\s*` and the `\S+` are
  forced maximal (shortening either puts a character of the wrong class
  under the next atom);
* `\s*\n` matches up to the last newline of the maximal whitespace run
  following the path token (backtracking from the greedy run stops at the
  first position whose next character is a newline, i.e. the run's last
  newline; choosing an earlier newline can never succeed where the last
  fails, because the skipped characters are whitespace and therefore
  contain no fence);
* the lazy `(.*?)` with DOTALL captures up to the first triple backtick
  that follows.

`re.findall` scans left to right, trying the pattern at each position and
resuming after each match. -/

/-- The triple-backtick fence, as a character list. -/
def tripleTick : List Char := "```".data

/-- The first occurrence of a triple backtick: `some (before, after)` splits
the input around the first fence, `none` when no fence occurs. -/
def splitAtTick : List Char → Option (List Char × List Char)
  | [] => none
  | c :: t =>
    if startsWithG tripleTick (c :: t) then some ([], (c :: t).drop 3)
    else match splitAtTick t with
         | some (pre, rest) => some (c :: pre, rest)
         | none => none

/-- Index of the last newline of a character list, if any. -/
def lastNL : List Char → Option Nat
  | [] => none
  | c :: t =>
    match lastNL t with
    | some i => some (i + 1)
    | none => if c = '\n' then some 0 else none

/-- Drop a literal from the front of the input, or fail. -/
def dropLit (lit cs : List Char) : Option (List Char) :=
  if startsWithG lit cs then some (cs.drop lit.length) else none

/-- The marker alternation `(?:filename|update|read):` of the block
pattern.  The three literals start with distinct characters, so regex
alternation is deterministic here. -/
def dropMarker (cs : List Char) : Option (List Char) :=
  match dropLit "filename:".data cs with
  | some r => some r
  | none =>
    match dropLit "update:".data cs with
    | some r => some r
    | none => dropLit "read:".data cs

/-- One attempt of the block pattern at the head of `cs`: on success,
`(raw path group, raw content group, rest of the text after the match)`. -/
def matchBlockAt (cs : List Char) : Option (List Char × List Char × List Char) :=
  match dropLit tripleTick cs with
  | none => none
  | some r0 =>
    match dropMarker r0 with
    | none => none
    | some r1 =>
      let r2 := r1.dropWhile pySpace
      let path := r2.takeWhile (fun c => !pySpace c)
      if path.isEmpty then none
      else
        let r3 := r2.drop path.length
        let bws := r3.takeWhile pySpace
        match lastNL bws with
        | none => none
        | some k =>
          match splitAtTick (r3.drop (k + 1)) with
          | none => none
          | some (content, r5) => some (path, content, r5)

/-- `re.findall` of the block pattern: scan left to right, resume after
each match.  Fuel-driven structural recursion; every step of the scan
consumes at least one character, so `fuel = cs.length` (as supplied by
`findBlocks`) always suffices. -/
def findBlocksAux : Nat → List Char → List (List Char × List Char)
  | 0, _ => []
  | _ + 1, [] => []
  | fuel + 1, c :: t =>
    match matchBlockAt (c :: t) with
    | some (p, b, rest) => (p, b) :: findBlocksAux fuel rest
    | none => findBlocksAux fuel t

/-- All matches of the block pattern in `cs`, in order of appearance. -/
def findBlocks (cs : List Char) : List (List Char × List Char) :=
  findBlocksAux cs.length cs

/-- The character class `[\w\s\-_./]` kept by the sanitiser's
`re.sub(r'[^\w\s\-_./]', '', ...)` (ASCII `\w`). -/
def keptChar (c : Char) : Bool :=
  c.isAlphanum || c = '_' || pySpace c || c = '-' || c = '.' || c = '/'

/-- The sanitisation of a raw path group: `strip`, removal of backticks and
quotes, removal of every character outside `[\w\s\-_./]`, `strip` again.
The three `replace` calls of the source remove only backticks, double
quotes and single quotes, all of which lie outside the kept class, so they
are subsumed by the class filter they precede. -/
def sanitizeFilePath (raw : List Char) : List Char :=
  pyStripL ((pyStripL raw).filter keptChar)

/-- Index of the first occurrence of `n` in `h` (Python `str.find`,
`none` for `-1`). -/
def firstIdx (n : List Char) : List Char → Option Nat
  | [] => if n.isEmpty then some 0 else none
  | c :: t =>
    if startsWithG n (c :: t) then some 0
    else (firstIdx n t).map (· + 1)

/-- Python's slice `l[-k:]`: the last `k` elements (all of `l` when it is
shorter than `k`). -/
def lastSlice (k : Nat) (l : List Char) : List Char := l.drop (l.length - k)

/-- The operation-classification step of `_extract_file_blocks` for one
match: the global guess over the whole text, then the reclassification by
the 50 characters preceding the first occurrence of the raw path group in
the whole text (`before_match = text[:text.find(match[0])]`,
`before_match[-50:]`).  When the raw path does not occur (impossible for a
captured group; Python's `find` would return `-1` and slice off the last
character) the text up to its last character is used. -/
def classifyOp (text rawPath : List Char) : String :=
  let guess :=
    if strIn "```filename:".data text || strIn "```create:".data text then "create"
    else if strIn "```update:".data text then "update"
    else if strIn "```read:".data text then "read"
    else "create"
  let before :=
    match firstIdx rawPath text with
    | some i => text.take i
    | none => text.take (text.length - 1)
  let window := lastSlice 50 before
  if strIn "```update:".data window then "update"
  else if strIn "```read:".data window then "read"
  else if strIn "```filename:".data window || strIn "```create:".data window then "create"
  else guess

/-- `FileAwareAgent._extract_file_blocks`: all `(operation, path, content)`
triples extracted from an agent reply, in order of appearance.  Matches
whose sanitised path is empty are skipped. -/
def extract_file_blocks (text : String) : List (String × String × String) :=
  (findBlocks text.data).filterMap (fun m =>
    let file_path := sanitizeFilePath m.1
    if file_path.isEmpty then none
    else some (classifyOp text.data m.1, String.mk file_path, String.mk (pyStripL m.2)))

example :
    extract_file_blocks "```filename: a.py\nprint(1)\n```\n```update: b.py\nprint(2)\n```"
      = [("create", "a.py", "print(1)"), ("update", "b.py", "print(2)")] := by decide

example :
    extract_file_blocks "```create: a.py\npass\n```\n```update: b.py\npass\n```"
      = [("update", "b.py", "pass")] := by decide

example :
    extract_file_blocks "```filename: a.py\nsee b.py\n```\n```update: b.py\nnew\n```"
      = [("create", "a.py", "see b.py"), ("create", "b.py", "new")] := by decide

/-- The second block of the two-block reply family analysed for the parser
claim: the character content of `"```update: b.py\n" ++ v ++ "\n```"`,
bracketed the way the block-match lemma expects. -/
def c3Block2 (v : List Char) : List Char :=
  tripleTick ++ ("update:".data ++ ([' '] ++ ("b.py".data ++ ('\n' ::
    (v ++ ('\n' :: (tripleTick ++ ([] : List Char))))))))

/-- The two-block reply family analysed for the parser claim, as a
structured character list: a `filename:` block for `a.py` with body `u`,
then an `update:` block for `b.py` with body `v`, exactly the character
content of the string
`"```filename: a.py\n" ++ u ++ "\n```\n```update: b.py\n" ++ v ++ "\n```"`. -/
def c3TextL (u v : List Char) : List Char :=
  tripleTick ++ ("filename:".data ++ ([' '] ++ ("a.py".data ++ ('\n' ::
    (u ++ ('\n' :: (tripleTick ++ ('\n' :: c3Block2 v))))))))

/-- The prefix of `c3TextL u v` that precedes the first occurrence of the
second block's path token `b.py` (when `u` itself avoids `b.py`): its last
characters are the closing fence of the first block and the opening
`update:` header of the second. -/
def c3Pre (u : List Char) : List Char :=
  tripleTick ++ ("filename:".data ++ ([' '] ++ ("a.py".data ++ ('\n' ::
    (u ++ ('\n' :: (tripleTick ++ ('\n' :: (tripleTick ++ ("update:".data ++
    ([' '] : List Char)))))))))))

/-- `c3Pre u` split off its final 15 characters: the front part up to and
including the newline that closes the first block's content. -/
def c3Front (u : List Char) : List Char :=
  tripleTick ++ ("filename:".data ++ ([' '] ++ ("a.py".data ++ ('\n' ::
    (u ++ (['\n'] : List Char))))))

/-- The final 15 characters of `c3Pre u`: closing fence, newline, and the
`update:` header of the second block. -/
def c3Tail : List Char :=
  tripleTick ++ ('\n' :: (tripleTick ++ ("update:".data ++ ([' '] : List Char))))

/-! ## `FileManager` (file_aware_agent.py 61-213)

Paths are modelled as lists of components.  `project_path / file_path`
followed by the operating system's resolution on write is `normJoin`: `.`
components are skipped, `..` pops the last component (at the file-system
root it stays put), other components are appended.  The file system is the
pair of a finite map (association list) from resolved paths to contents
and the set of directories that exist; `FileManager.__init__` runs
`mkdir(parents=True, exist_ok=True)` on the project path, so every prefix
of the root exists from the start.  The empty path is the file-system root
and always exists as a directory.  What is not modelled: I/O faults, and
collisions between a file and a directory of the same name. -/

/-- Split a character list on `/` (Python `str.split('/')`, keeping empty
pieces). -/
def splitComps : List Char → List (List Char)
  | [] => [[]]
  | c :: t =>
    if c = '/' then [] :: splitComps t
    else match splitComps t with
         | [] => [[c]]
         | h :: r => (c :: h) :: r

/-- Split a relative path string on `/`, dropping empty components. -/
def splitPath (s : String) : List String :=
  ((splitComps s.data).map String.mk).filter (fun p => p ≠ "")

/-- Join a base path and relative components, resolving `.` and `..` the
way the operating system resolves them when the joined path is opened. -/
def normJoin (base : List String) : List String → List String
  | [] => base
  | comp :: rest =>
    if comp = "." then normJoin base rest
    else if comp = ".." then normJoin base.dropLast rest
    else normJoin (base ++ [comp]) rest

/-- Every nonempty prefix of a path: the directories
`mkdir(parents=True)` creates. -/
def pathPrefixes (l : List String) : List (List String) :=
  (List.range l.length).map (fun k => l.take (k + 1))

/-- One entry of `FileManager.file_history`. -/
structure HistEntry where
  action : String
  file : String
  agent : String
  success : Bool
  deriving DecidableEq, Repr

/-- The state owned by a `FileManager`: the workspace root, the files on
disk (resolved path ↦ content), the directories that exist, and the
operation history. -/
structure FMState where
  project_path : List String
  files : List (List String × String)
  dirs : List (List String)
  file_history : List HistEntry
  deriving DecidableEq, Repr

/-- `FileManager.__init__`: remember the root and create it (with all its
parents); no files, empty history. -/
def initFM (project_path : List String) : FMState :=
  ⟨project_path, [], pathPrefixes project_path, []⟩

/-- Whether a directory exists in the state (the file-system root `[]`
always does). -/
def dirExists (st : FMState) (d : List String) : Bool :=
  d.isEmpty || st.dirs.contains d

/-- Write `content` at resolved path `p`, superseding any previous entry. -/
def setFile (fs : List (List String × String)) (p : List String) (content : String) :
    List (List String × String) :=
  (p, content) :: fs.filter (fun e => e.1 ≠ p)

/-- `FileManager.create_file`: join the path onto the root, create the
parent directories (`full_path.parent.mkdir(parents=True, exist_ok=True)`),
write the content, append a successful `create` record, return `True`.
There is no sandbox check of any kind; with I/O faults unmodelled the
call always succeeds. -/
def create_file (st : FMState) (file_path content agent_name : String) : Bool × FMState :=
  let full := normJoin st.project_path (splitPath file_path)
  let parent := full.dropLast
  let dirs' := st.dirs ++ (pathPrefixes parent).filter (fun d => !st.dirs.contains d)
  (true, ⟨st.project_path, setFile st.files full content, dirs',
          st.file_history ++ [⟨"create", file_path, agent_name, true⟩]⟩)

/-- `FileManager.read_file`: the content at the resolved path, `none` when
the open fails (file absent). -/
def read_file (st : FMState) (file_path : String) : Option String :=
  st.files.lookup (normJoin st.project_path (splitPath file_path))

/-- The backup path of `update_file`:
`full_path.with_suffix(full_path.suffix + '.backup')` replaces the final
suffix of the file name by itself plus `.backup`, i.e. appends `.backup`
to the file name. -/
def backupPath (full : List String) : List String :=
  full.dropLast ++ (full.drop (full.length - 1)).map (fun s => s ++ ".backup")

/-- `FileManager.update_file`: join the path onto the root.  If the file
exists and its content differs from the new content, write the old content
to the backup path, write the new content, append a successful `update`
record, return `True`.  If the file exists with identical content, return
`True` immediately (no write, no backup, no history entry).  If the file
does not exist, open it for writing: this succeeds (creating the file,
with no backup and an `update` history entry) exactly when the parent
directory exists — `update_file` runs no `mkdir`, and on the resulting
`FileNotFoundError` the `except` branch returns `False` without touching
the history. -/
def update_file (st : FMState) (file_path content agent_name : String) : Bool × FMState :=
  let full := normJoin st.project_path (splitPath file_path)
  match st.files.lookup full with
  | some old_content =>
    if old_content ≠ content then
      (true, ⟨st.project_path,
              setFile (setFile st.files (backupPath full) old_content) full content,
              st.dirs,
              st.file_history ++ [⟨"update", file_path, agent_name, true⟩]⟩)
    else (true, st)
  | none =>
    if dirExists st full.dropLast then
      (true, ⟨st.project_path, setFile st.files full content, st.dirs,
              st.file_history ++ [⟨"update", file_path, agent_name, true⟩]⟩)
    else (false, st)

example :
    (create_file (initFM ["home", "proj"]) "../evil.txt" "pwn" "Mallory").1 = true := by decide
example :
    (create_file (initFM ["home", "proj"]) "../evil.txt" "pwn" "Mallory").2.files.lookup
      ["home", "evil.txt"] = some "pwn" := by decide
example :
    update_file (initFM ["ws"]) "sub/a.txt" "x" "Dev" = (false, initFM ["ws"]) := by decide

/-! ## `TestExecutor` (test_executor.py)

The subprocess is an external capability: it is modelled as an oracle
mapping the command string to its outcome (completion with captured
output and exit code, timeout, or spawn failure).  The workspace marker
files that `detect_test_framework` inspects are modelled as a record of
booleans, and the `subprocess.run(["pytest", "--version"])` availability
probe as one more boolean.  The four `_extract_*_failures` helpers only
populate the `failures` lists, which no claim depends on; they are taken
as parameters (a record of functions) so that every theorem below holds
for any implementation of them. -/

/-- The outcome of `subprocess.run` on the test command. -/
inductive SubOutcome where
  | completed (stdout stderr : String) (returncode : Int)
  | timeout
  | spawnError (msg : String)
  deriving DecidableEq, Repr

/-- The marker files `detect_test_framework` looks for, plus whether the
`pytest --version` probe succeeds. -/
structure TestMarkers where
  pytestIni : Bool
  setupPy : Bool
  testPyGlob : Bool
  pyTestGlob : Bool
  pytestAvailable : Bool
  packageJsonExists : Bool
  packageJsonHasTestScript : Bool
  goTestGlob : Bool
  cargoToml : Bool
  pomXml : Bool
  buildGradle : Bool
  deriving DecidableEq, Repr

/-- `TestExecutor.detect_test_framework`: the fixed rule chain, first
match wins; `none` when no marker matches.  A present but unreadable or
script-less `package.json` falls through to `jest` inside its branch. -/
def detect_test_framework (m : TestMarkers) : Option String :=
  if m.pytestIni || m.setupPy || m.testPyGlob || m.pyTestGlob then
    some (if m.pytestAvailable then "pytest -v" else "python -m unittest discover -v")
  else if m.packageJsonExists then
    (if m.packageJsonHasTestScript then some "npm test" else some "jest")
  else if m.goTestGlob then some "go test ./... -v"
  else if m.cargoToml then some "cargo test"
  else if m.pomXml then some "mvn test"
  else if m.buildGradle then some "gradle test"
  else none

/-- One failure record produced by the `_extract_*_failures` helpers. -/
structure PyFailure where
  test : String
  error : String
  deriving DecidableEq, Repr

/-- The framework-specific failure extractors of `test_executor.py`,
taken as parameters (see the section comment). -/
structure FailureExtractors where
  pytest : String → List PyFailure
  unittestF : String → List PyFailure
  jest : String → List PyFailure
  go : String → List PyFailure

/-- The result dict of `run_tests`/`_parse_test_output`, as one record.
Python builds dicts with varying key sets; absent keys are carried here
with their neutral defaults (`none`, `0`, `""`). -/
structure TestReport where
  success : Bool
  error : Option String
  framework : Option String
  total_tests : Int
  passed : Int
  failed : Int
  errors : List String
  failures : List PyFailure
  stdout : String
  stderr : String
  returncode : Option Int
  deriving DecidableEq, Repr

/-- Decimal digits to a number. -/
def digitsToNat (ds : List Char) : Nat :=
  ds.foldl (fun acc c => acc * 10 + (c.toNat - '0'.toNat)) 0

/-- The leftmost match of `(\d+)` followed by the literal `suffix`
(`re.search(r'(\d+) passed', ...)` and its siblings): scan left to right;
at each position a nonempty maximal digit run followed by the suffix is a
match.  (Backtracking inside `\d+` never helps: a shortened run puts a
digit under the suffix's first character, which is not a digit.) -/
def findCount (suffix : List Char) : List Char → Option Nat
  | [] => none
  | c :: t =>
    let ds := (c :: t).takeWhile Char.isDigit
    if !ds.isEmpty && startsWithG suffix ((c :: t).drop ds.length) then
      some (digitsToNat ds)
    else findCount suffix t

/-- `re.search(r'Ran (\d+) test', ...)`: leftmost `Ran ` followed by a
digit run followed by ` test`. -/
def findRanCount : List Char → Option Nat
  | [] => none
  | c :: t =>
    (if startsWithG "Ran ".data (c :: t) then
      let ds := ((c :: t).drop 4).takeWhile Char.isDigit
      if !ds.isEmpty && startsWithG " test".data ((c :: t).drop (4 + ds.length)) then
        some (digitsToNat ds)
      else none
    else none).orElse (fun _ => findRanCount t)

/-- The lazy tail `.*?failures=(\d+)` of
`re.search(r'FAILED \(.*?failures=(\d+)', ...)` (no DOTALL, so `.` stops
at a newline): the first `failures=` on the current line that is followed
by a digit. -/
def scanFailuresEq : List Char → Option Nat
  | [] => none
  | c :: t =>
    if c = '\n' then none
    else if startsWithG "failures=".data (c :: t) &&
        !(((c :: t).drop 9).takeWhile Char.isDigit).isEmpty then
      some (digitsToNat (((c :: t).drop 9).takeWhile Char.isDigit))
    else scanFailuresEq t

/-- `re.search(r'FAILED \(.*?failures=(\d+)', ...)`: leftmost `FAILED (`
whose line goes on to `failures=` and a digit run. -/
def findUnittestFailures : List Char → Option Nat
  | [] => none
  | c :: t =>
    (if startsWithG "FAILED (".data (c :: t) then scanFailuresEq ((c :: t).drop 8)
     else none).orElse (fun _ => findUnittestFailures t)

/-- The lazy piece `.*?(\d+) <suffix>` of the Jest pattern, within the
current line: the first digit run followed by the suffix, returning the
number and the rest of the input after the suffix. -/
def sameLineNum (suffix : List Char) : List Char → Option (Nat × List Char)
  | [] => none
  | c :: t =>
    if c = '\n' then none
    else
      let ds := (c :: t).takeWhile Char.isDigit
      if !ds.isEmpty && startsWithG suffix ((c :: t).drop ds.length) then
        some (digitsToNat ds, ((c :: t).drop ds.length).drop suffix.length)
      else sameLineNum suffix t

/-- The tail of the Jest pattern after a matched `Tests:`:
`\s+(\d+) failed.*?(\d+) passed.*?(\d+) total`.  `\s+` and the first
`\d+` are forced maximal; the two lazy pieces are same-line scans, and
failure of a later piece cannot be rescued by a longer earlier lazy piece
(the later search region only shrinks), so the scan is deterministic. -/
def jestTail (cs : List Char) : Option (Nat × Nat × Nat) :=
  if (cs.takeWhile pySpace).isEmpty then none
  else
    let r := cs.dropWhile pySpace
    let ds := r.takeWhile Char.isDigit
    if ds.isEmpty then none
    else
      match dropLit " failed".data (r.drop ds.length) with
      | none => none
      | some r2 =>
        match sameLineNum " passed".data r2 with
        | none => none
        | some (p, r3) =>
          match sameLineNum " total".data r3 with
          | none => none
          | some (tot, _) => some (digitsToNat ds, p, tot)

/-- `re.search(r'Tests:\s+(\d+) failed.*?(\d+) passed.*?(\d+) total', ...)`
as `(failed, passed, total)`. -/
def jestCounts : List Char → Option (Nat × Nat × Nat)
  | [] => none
  | c :: t =>
    (if startsWithG "Tests:".data (c :: t) then jestTail ((c :: t).drop 6)
     else none).orElse (fun _ => jestCounts t)

/-- Count of non-overlapping occurrences of `needle`
(`len(re.findall(...))` for a literal pattern).  Fuel-driven; the fuel
supplied by `countOcc` always suffices since every step consumes at least
one character. -/
def countOccAux (needle : List Char) : Nat → List Char → Nat
  | 0, _ => 0
  | _ + 1, [] => 0
  | fuel + 1, c :: t =>
    if startsWithG needle (c :: t) then 1 + countOccAux needle fuel ((c :: t).drop needle.length)
    else countOccAux needle fuel t

/-- Count of non-overlapping occurrences of `needle` in `cs`. -/
def countOcc (needle cs : List Char) : Nat :=
  countOccAux needle cs.length cs

/-- The framework-specific branch chain of `TestExecutor._parse_test_output`:
success is `returncode == 0` from the start; the branch selected by the
command string fills in the counts and failure lists and touches nothing
else. -/
def parseBranches (E : FailureExtractors) (stdout stderr : String) (returncode : Int)
    (framework : String) : TestReport :=
  let full := stdout ++ "\n" ++ stderr
  let flower := pyLower framework
  let base : TestReport :=
    ⟨returncode == 0, none, some framework, 0, 0, 0, [], [], stdout, stderr, some returncode⟩
  if strInS "pytest" flower then
      let p : Int := (findCount " passed".data full.data).getD 0
      let f : Int := (findCount " failed".data full.data).getD 0
      { base with passed := p, failed := f, total_tests := p + f, failures := E.pytest full }
    else if strInS "unittest" flower then
      let tot : Int := (findRanCount full.data).getD 0
      let r :=
        if strInS "OK" full then { base with total_tests := tot, passed := tot, failed := 0 }
        else
          match findUnittestFailures full.data with
          | some f => { base with total_tests := tot, failed := (f : Int), passed := tot - f }
          | none => { base with total_tests := tot }
      { r with failures := E.unittestF full }
    else if strInS "jest" flower || strInS "npm test" flower then
      let r :=
        match jestCounts full.data with
        | some (f, p, tot) =>
          { base with failed := (f : Int), passed := (p : Int), total_tests := (tot : Int) }
        | none => base
      { r with failures := E.jest full }
    else if strInS "go test" flower then
      let p : Int := countOcc "--- PASS:".data full.data
      let f : Int := countOcc "--- FAIL:".data full.data
      { base with passed := p, failed := f, total_tests := p + f, failures := E.go full }
    else base

/-- `TestExecutor._parse_test_output` proper: the framework branches of
`parseBranches`, then the fallback that marks unparseable failing runs
(`total_tests == 0` and a non-zero exit code) with an opaque error entry
and `failed = 1`. -/
def parse_test_output (E : FailureExtractors) (stdout stderr : String) (returncode : Int)
    (framework : String) : TestReport :=
  let r1 := parseBranches E stdout stderr returncode framework
  if r1.total_tests = 0 && returncode ≠ 0 then
    { r1 with errors := r1.errors ++ ["Tests failed but couldn't parse detailed results"],
              failed := 1 }
  else r1

/-- The report returned when no test framework is found. -/
def noFrameworkReport : TestReport :=
  ⟨false, some "No test framework detected. Please create tests or specify test command.",
   none, 0, 0, 0, [], [], "", "", none⟩

/-- The report returned on `subprocess.TimeoutExpired`. -/
def timeoutReport (framework : String) : TestReport :=
  ⟨false, some "Tests timed out after 5 minutes", some framework, 0, 0, 0,
   ["Test execution exceeded 5 minute timeout"], [], "", "", none⟩

/-- The report returned when `subprocess.run` raises any other exception. -/
def spawnErrorReport (framework msg : String) : TestReport :=
  ⟨false, some ("Failed to run tests: " ++ msg), some framework, 0, 0, 0,
   [msg], [], "", "", none⟩

/-- The command `run_tests` runs: `custom_command or self.detect_test_framework()`
— Python's `or`, so an empty custom command is falsy and falls through to
detection. -/
def resolveCommand (custom : Option String) (m : TestMarkers) : Option String :=
  match custom with
  | some c => if c = "" then detect_test_framework m else some c
  | none => detect_test_framework m

/-- The result of `run_tests`, together with whether a subprocess was
spawned at all. -/
structure RunTestsResult where
  report : TestReport
  spawned : Bool
  deriving DecidableEq, Repr

/-- `TestExecutor.run_tests`: resolve the command; with none, return the
no-framework report without spawning anything.  Otherwise spawn, and turn
a completed run into a parsed report, a timeout or a spawn failure into
the corresponding synthetic failing report.  No branch raises: all four
outcomes are returns. -/
def run_tests (E : FailureExtractors) (m : TestMarkers) (oracle : String → SubOutcome)
    (custom : Option String) : RunTestsResult :=
  match resolveCommand custom m with
  | none => ⟨noFrameworkReport, false⟩
  | some cmd =>
    match oracle cmd with
    | SubOutcome.completed out err rc => ⟨parse_test_output E out err rc cmd, true⟩
    | SubOutcome.timeout => ⟨timeoutReport cmd, true⟩
    | SubOutcome.spawnError msg => ⟨spawnErrorReport cmd msg, true⟩

/-! ## The test-and-fix phase of `create_project_workflow`
(file_aware_agent.py 755-820) -/

/-- The developer subset of the roster:
`[a for a in file_agents if "developer" in a.role.lower()]`. -/
def developer_agents (roles : List String) : List String :=
  roles.filter (fun r => strInS "developer" (pyLower r))

/-- Whether the failing-test feedback is generated in a given iteration:
tests are run only when testing is enabled and `iteration > 0`, and the
feedback branch requires a non-successful report and
`iteration < max_iterations - 1`. -/
def feedbackGenerated (testingEnabled : Bool) (iteration maxIterations : Nat)
    (success : Bool) : Bool :=
  testingEnabled && decide (0 < iteration) && !success &&
    decide (iteration < maxIterations - 1)

/-- Whether the fix sub-round with developer agents runs: the feedback
branch was taken and the roster contains at least one developer. -/
def fixRoundRuns (testingEnabled : Bool) (iteration maxIterations : Nat)
    (success : Bool) (roles : List String) : Bool :=
  feedbackGenerated testingEnabled iteration maxIterations success &&
    !(developer_agents roles).isEmpty

/-- Failure extractors that extract nothing — a concrete instantiation of
the parameters for closed checks. -/
def noExtractors : FailureExtractors :=
  ⟨fun _ => [], fun _ => [], fun _ => [], fun _ => []⟩

/-- A workspace with no test markers at all: `detect_test_framework`
returns `none` on it. -/
def noMarkers : TestMarkers :=
  ⟨false, false, false, false, false, false, false, false, false, false, false⟩

/-- A workspace with a `pytest.ini` and pytest available:
`detect_test_framework` returns `pytest -v` on it. -/
def pyMarkers : TestMarkers :=
  ⟨true, false, false, false, true, false, false, false, false, false, false⟩

/-! ## The iteration loop of `create_project_workflow`
(file_aware_agent.py 583-835, 976-989)

The loop drives `max_iterations` rounds over the roster.  Only the
completion-vote bookkeeping and the stop decision are control flow; the
file operations, reviews and the test phase of a round neither read nor
write the completion counters, so the loop is modelled over the stream of
agent replies (`replies i a` is the reply of agent `a` in zero-indexed
iteration `i`, with the roster of size `n` indexed `0..n-1`).

A completion vote is recorded for agent `a` in iteration `i` exactly when
`stop_on_complete` holds and `_is_completion_signal` accepts the reply;
the signal log entry is `(a, i+1)` mirroring the
`{"agent": ..., "iteration": iteration + 1}` dict.  After the round, when
`stop_on_complete` holds and `iteration >= min_iterations - 1`, the loop
breaks iff `votes / n >= 0.7`.  The float comparison
`count / n >= 0.7` agrees with the rational test `10 * count >= 7 * n`
for every positive roster size that fits in memory: the gaps between the
candidate ratios (multiples of `1/n`) and `7/10` are astronomically wider
than double rounding error, and `7/10` itself rounds to the same double
on both sides. -/

/-- The completion votes of one round, in roster order: `(agent index,
iteration + 1)` for each agent whose reply signals completion, empty when
`stop_on_complete` is off (the vote check is guarded by it). -/
def roundSignals (replies : Nat → Nat → String) (n : Nat) (stopOnComplete : Bool)
    (i : Nat) : List (Nat × Nat) :=
  if stopOnComplete then
    (List.range n).filterMap (fun a =>
      if is_completion_signal (replies i a) then some (a, i + 1) else none)
  else []

/-- The break test at the end of iteration `i`:
`stop_on_complete and iteration >= min_iterations - 1` guards the check,
and the check is `completion_percentage >= 0.7` (see the section comment
for the rational rendering). -/
def stopCond (replies : Nat → Nat → String) (n : Nat) (stopOnComplete : Bool)
    (minIterations i : Nat) : Bool :=
  stopOnComplete && decide (minIterations - 1 ≤ i) &&
    decide (7 * n ≤ 10 * (roundSignals replies n stopOnComplete i).length)

/-- What the loop produces: the accumulated completion-signal log, whether
the quorum break was taken, and how many iterations ran. -/
structure LoopResult where
  completion_signals : List (Nat × Nat)
  brokeEarly : Bool
  iterationsRun : Nat
  deriving DecidableEq, Repr

/-- The iteration loop, by fuel (the remaining `range max_iterations`):
run the round at index `i`, append its votes to the log, break when
`stopCond` fires, else continue at `i + 1`. -/
def loopAux (replies : Nat → Nat → String) (n : Nat) (stopOnComplete : Bool)
    (minIterations : Nat) : Nat → Nat → List (Nat × Nat) → LoopResult
  | 0, i, sigs => ⟨sigs, false, i⟩
  | fuel + 1, i, sigs =>
    let sigs' := sigs ++ roundSignals replies n stopOnComplete i
    if stopCond replies n stopOnComplete minIterations i then ⟨sigs', true, i + 1⟩
    else loopAux replies n stopOnComplete minIterations fuel (i + 1) sigs'

/-- The whole loop of `create_project_workflow`, from iteration 0 with an
empty signal log. -/
def workflowLoop (replies : Nat → Nat → String) (n : Nat) (stopOnComplete : Bool)
    (minIterations maxIterations : Nat) : LoopResult :=
  loopAux replies n stopOnComplete minIterations maxIterations 0 []

/-- The `stopped_early` field of the returned dict:
`len(completion_signals) > 0 and stop_on_complete` — computed from the
signal log alone, with no reference to whether the quorum break was
taken. -/
def stopped_early (r : LoopResult) (stopOnComplete : Bool) : Bool :=
  decide (0 < r.completion_signals.length) && stopOnComplete

/-- A reply stream for scratch checks: agent `a` signals completion in
every round iff `a < k`. -/
def repliesK (k : Nat) : Nat → Nat → String :=
  fun _ a => if a < k then "Project is complete." else "Keep refining the code."

example : (workflowLoop (repliesK 4) 5 true 1 3).brokeEarly = true := by decide
example : (workflowLoop (repliesK 4) 5 true 1 3).iterationsRun = 1 := by decide
example : (workflowLoop (repliesK 3) 5 true 1 3).brokeEarly = false := by decide
example : (workflowLoop (repliesK 3) 5 true 1 3).iterationsRun = 3 := by decide
example : (workflowLoop (repliesK 5) 5 true 2 4).iterationsRun = 2 := by decide

/-! ## Lemmas about the iteration loop -/

theorem loopAux_iters_ge (replies : Nat → Nat → String) (n : Nat) (s : Bool)
    (minI : Nat) :
    ∀ fuel i sigs, i ≤ (loopAux replies n s minI fuel i sigs).iterationsRun := by
  intro fuel
  induction fuel with
  | zero => intro i sigs; exact Nat.le_refl i
  | succ f ih =>
    intro i sigs
    cases hc : stopCond replies n s minI i with
    | true => simp [loopAux, hc]
    | false =>
      simp only [loopAux, hc, Bool.false_eq_true, if_false]
      exact Nat.le_trans (Nat.le_succ i) (ih (i + 1) _)

theorem loopAux_broke_iters (replies : Nat → Nat → String) (n : Nat) (s : Bool)
    (minI : Nat) :
    ∀ fuel i sigs, (loopAux replies n s minI fuel i sigs).brokeEarly = true →
      i + 1 ≤ (loopAux replies n s minI fuel i sigs).iterationsRun := by
  intro fuel
  induction fuel with
  | zero => intro i sigs h; exact absurd h (by simp [loopAux])
  | succ f ih =>
    intro i sigs
    cases hc : stopCond replies n s minI i with
    | true => intro _; simp [loopAux, hc]
    | false =>
      simp only [loopAux, hc, Bool.false_eq_true, if_false]
      intro h
      exact Nat.le_trans (Nat.succ_le_succ (Nat.le_succ i)) (ih (i + 1) _ h)

theorem stopCond_gate (replies : Nat → Nat → String) (n : Nat) (s : Bool)
    (minI i : Nat) (h : stopCond replies n s minI i = true) : minI - 1 ≤ i := by
  have h1 := (Bool.and_eq_true _ _).mp h
  have h2 := (Bool.and_eq_true _ _).mp h1.1
  exact of_decide_eq_true h2.2

theorem loopAux_broke_minI (replies : Nat → Nat → String) (n : Nat) (s : Bool)
    (minI : Nat) :
    ∀ fuel i sigs, (loopAux replies n s minI fuel i sigs).brokeEarly = true →
      minI ≤ (loopAux replies n s minI fuel i sigs).iterationsRun := by
  intro fuel
  induction fuel with
  | zero => intro i sigs h; exact absurd h (by simp [loopAux])
  | succ f ih =>
    intro i sigs
    cases hc : stopCond replies n s minI i with
    | true =>
      intro _
      have := stopCond_gate replies n s minI i hc
      simp only [loopAux, hc, if_true]
      omega
    | false =>
      simp only [loopAux, hc, Bool.false_eq_true, if_false]
      exact ih (i + 1) _

theorem loopAux_sig_ne (replies : Nat → Nat → String) (n : Nat) (s : Bool)
    (minI : Nat) :
    ∀ fuel i sigs, ((loopAux replies n s minI fuel i sigs).completion_signals ≠ [] ↔
      (sigs ≠ [] ∨ ∃ j, i ≤ j ∧ j < (loopAux replies n s minI fuel i sigs).iterationsRun ∧
        roundSignals replies n s j ≠ [])) := by
  intro fuel
  induction fuel with
  | zero =>
    intro i sigs
    constructor
    · intro h; exact Or.inl h
    · rintro (h | ⟨j, hij, hji, _⟩)
      · exact h
      · exact absurd hji (by simp [loopAux]; omega)
  | succ f ih =>
    intro i sigs
    cases hc : stopCond replies n s minI i with
    | true =>
      simp only [loopAux, hc, if_true]
      constructor
      · intro h
        rcases List.append_eq_nil.not.mp h |> not_and_or.mp with h1 | h1
        · exact Or.inl h1
        · exact Or.inr ⟨i, Nat.le_refl i, Nat.lt_succ_self i, h1⟩
      · rintro (h | ⟨j, hij, hji, hr⟩)
        · intro hcon; exact h (List.append_eq_nil.mp hcon).1
        · have hj : j = i := by omega
          subst hj
          intro hcon; exact hr (List.append_eq_nil.mp hcon).2
    | false =>
      simp only [loopAux, hc, Bool.false_eq_true, if_false]
      rw [ih (i + 1) (sigs ++ roundSignals replies n s i)]
      constructor
      · rintro (h | ⟨j, hij, hji, hr⟩)
        · rcases List.append_eq_nil.not.mp h |> not_and_or.mp with h1 | h1
          · exact Or.inl h1
          · refine Or.inr ⟨i, Nat.le_refl i, ?_, h1⟩
            have := loopAux_iters_ge replies n s minI f (i + 1)
              (sigs ++ roundSignals replies n s i)
            omega
        · exact Or.inr ⟨j, by omega, hji, hr⟩
      · rintro (h | ⟨j, hij, hji, hr⟩)
        · exact Or.inl (fun hcon => h (List.append_eq_nil.mp hcon).1)
        · rcases Nat.eq_or_lt_of_le hij with rfl | hlt
          · exact Or.inl (fun hcon => hr (List.append_eq_nil.mp hcon).2)
          · exact Or.inr ⟨j, hlt, hji, hr⟩

theorem roundSignals_ne (replies : Nat → Nat → String) (n : Nat) (s : Bool) (j : Nat) :
    roundSignals replies n s j ≠ [] ↔
      (s = true ∧ ∃ a, a < n ∧ is_completion_signal (replies j a) = true) := by
  cases s with
  | false => simp [roundSignals]
  | true =>
    simp only [roundSignals, if_true, true_and]
    rw [Ne, List.filterMap_eq_nil_iff]
    constructor
    · intro h
      by_contra hcon
      push_neg at hcon
      apply h
      intro a ha
      have hlt := List.mem_range.mp ha
      have := hcon a hlt
      simp [this]
    · rintro ⟨a, hlt, hsig⟩ h
      have := h a (List.mem_range.mpr hlt)
      rw [hsig] at this
      simp at this

theorem loopAux_break_at (replies : Nat → Nat → String) (n : Nat) (minI : Nat) :
    ∀ fuel i0 sigs i, i0 ≤ i → i < i0 + fuel →
      (∀ j, i0 ≤ j → j < i → stopCond replies n true minI j = false) →
      (((loopAux replies n true minI fuel i0 sigs).brokeEarly = true ∧
        (loopAux replies n true minI fuel i0 sigs).iterationsRun = i + 1) ↔
        stopCond replies n true minI i = true) := by
  intro fuel
  induction fuel with
  | zero => intro i0 sigs i h1 h2 _; omega
  | succ f ih =>
    intro i0 sigs i h1 h2 hbef
    rcases Nat.eq_or_lt_of_le h1 with rfl | hlt
    · cases hc : stopCond replies n true minI i0 with
      | true => simp [loopAux, hc]
      | false =>
        simp only [loopAux, hc, Bool.false_eq_true, if_false, iff_false, not_and]
        intro hbroke
        have := loopAux_broke_iters replies n true minI f (i0 + 1)
          (sigs ++ roundSignals replies n true i0) hbroke
        omega
    · have h0 : stopCond replies n true minI i0 = false := hbef i0 (Nat.le_refl i0) hlt
      simp only [loopAux, h0, Bool.false_eq_true, if_false]
      exact ih (i0 + 1) _ i hlt (by omega) (fun j hj1 hj2 => hbef j (by omega) hj2)

/-! ## Claims C2, C4, C5: the stop decision and `stopped_early` -/

/-- C2, counterexample.  A run with roster size 5 whose agent 0 signals
completion in both of its 2 iterations while the other four never do:
completion votes are recorded in every round, the 70% quorum is never
reached, the loop exhausts `max_iterations` without ever taking the
early-stop break — and the returned `stopped_early` is nevertheless
`true`, contradicting the claim that `stopped_early` requires the quorum
stop path to have been taken. -/
theorem c2_stopped_early_cex :
    (workflowLoop (repliesK 1) 5 true 2 2).brokeEarly = false ∧
    (workflowLoop (repliesK 1) 5 true 2 2).iterationsRun = 2 ∧
    (workflowLoop (repliesK 1) 5 true 2 2).completion_signals = [(0, 1), (0, 2)] ∧
    stopped_early (workflowLoop (repliesK 1) 5 true 2 2) true = true := by
  decide

/-- C2, amended.  `stopped_early` is true iff `stop_on_complete` is set and
at least one completion vote was recorded in some executed iteration —
whether or not the quorum early-stop path was taken. -/
theorem c2_stopped_early_semantics (replies : Nat → Nat → String)
    (n maxI minI : Nat) (stopOn : Bool) (hn : 0 < n) :
    stopped_early (workflowLoop replies n stopOn minI maxI) stopOn = true ↔
      (stopOn = true ∧ ∃ j, j < (workflowLoop replies n stopOn minI maxI).iterationsRun ∧
        ∃ a, a < n ∧ is_completion_signal (replies j a) = true) := by
  unfold stopped_early workflowLoop
  rw [Bool.and_eq_true, decide_eq_true_iff]
  have hne := loopAux_sig_ne replies n stopOn minI maxI 0 []
  constructor
  · rintro ⟨hlen, hstop⟩
    have hn0 : (loopAux replies n stopOn minI maxI 0 []).completion_signals ≠ [] := by
      intro hcon
      rw [hcon] at hlen
      simp at hlen
    rcases hne.mp hn0 with h | ⟨j, _, hji, hr⟩
    · exact absurd rfl h
    · rcases (roundSignals_ne replies n stopOn j).mp hr with ⟨_, a, ha, hsig⟩
      exact ⟨hstop, j, hji, a, ha, hsig⟩
  · rintro ⟨hstop, j, hji, a, ha, hsig⟩
    have hr : roundSignals replies n stopOn j ≠ [] :=
      (roundSignals_ne replies n stopOn j).mpr ⟨hstop, a, ha, hsig⟩
    have := hne.mpr (Or.inr ⟨j, Nat.zero_le j, hji, hr⟩)
    refine ⟨?_, hstop⟩
    cases hmem : (loopAux replies n stopOn minI maxI 0 []).completion_signals with
    | nil => exact absurd hmem this
    | cons x xs => simp

/-- C2, witness: a roster of 5 with 2 completion votes per round under
`stop_on_complete`, `min_iterations = 2`, `max_iterations = 3` — a vote is
recorded in an executed round, so `stopped_early` is true. -/
theorem c2_stopped_early_witness :
    stopped_early (workflowLoop (repliesK 2) 5 true 2 3) true = true :=
  (c2_stopped_early_semantics (repliesK 2) 5 3 2 true (by decide)).mpr
    ⟨rfl, 0, by decide, 0, by decide, by decide⟩

/-- C4.  For every iteration `i` that the controller reaches (no earlier
break) at or past the min-iterations gate, with auto-stop on and a
nonempty roster, the quorum break fires after iteration `i` exactly when
`10 * votes ≥ 7 * roster`, i.e. when the completion percentage reaches
70%. -/
theorem c4_quorum_rule (replies : Nat → Nat → String) (n minI maxI i : Nat)
    (hn : 0 < n) (hgate : minI - 1 ≤ i) (hmax : i < maxI)
    (hbef : ∀ j, j < i → stopCond replies n true minI j = false) :
    ((workflowLoop replies n true minI maxI).brokeEarly = true ∧
      (workflowLoop replies n true minI maxI).iterationsRun = i + 1) ↔
      7 * n ≤ 10 * (roundSignals replies n true i).length := by
  unfold workflowLoop
  rw [loopAux_break_at replies n minI maxI 0 [] i (Nat.zero_le i) (by omega)
    (fun j _ hj => hbef j hj)]
  simp [stopCond, hgate]

/-- C4, witness: with a roster of 5 and `min_iterations = 1`, 4 completion
votes (80%) in the first round break the loop after that round, and 3
votes (60%) in every round never break it. -/
theorem c4_quorum_witness :
    ((workflowLoop (repliesK 4) 5 true 1 3).brokeEarly = true ∧
      (workflowLoop (repliesK 4) 5 true 1 3).iterationsRun = 0 + 1) ∧
    (workflowLoop (repliesK 3) 5 true 1 3).brokeEarly = false :=
  ⟨(c4_quorum_rule (repliesK 4) 5 1 3 0 (by decide) (by decide) (by decide)
      (fun j hj => absurd hj (Nat.not_lt_zero j))).mpr (by decide),
   by decide⟩

/-- C5.  The completion check is gated by
`iteration >= min_iterations - 1`: with `min_iterations = 2` every run of
at least 2 allowed iterations executes at least 2 iterations, however
many completion votes the first round records; and in general the quorum
break can only produce a run of at least `min_iterations` iterations. -/
theorem c5_min_iterations_gate :
    (∀ (replies : Nat → Nat → String) (n : Nat) (stopOn : Bool) (maxI : Nat),
      2 ≤ maxI → 2 ≤ (workflowLoop replies n stopOn 2 maxI).iterationsRun) ∧
    (∀ (replies : Nat → Nat → String) (n : Nat) (stopOn : Bool) (minI maxI : Nat),
      (workflowLoop replies n stopOn minI maxI).brokeEarly = true →
        minI ≤ (workflowLoop replies n stopOn minI maxI).iterationsRun) := by
  constructor
  · intro replies n stopOn maxI h
    obtain ⟨k, rfl⟩ := Nat.exists_eq_add_of_le h
    show 2 ≤ (loopAux replies n stopOn 2 (2 + k) 0 []).iterationsRun
    have hstep : stopCond replies n stopOn 2 0 = false := by
      simp [stopCond]
    have h2 : 2 + k = k + 1 + 1 := by omega
    rw [h2]
    simp only [loopAux, hstep, Bool.false_eq_true, if_false]
    cases hc : stopCond replies n stopOn 2 1 with
    | true => simp [loopAux, hc]
    | false =>
      simp only [loopAux, hc, Bool.false_eq_true, if_false]
      have := loopAux_iters_ge replies n stopOn 2 k (0 + 1 + 1)
        (([] ++ roundSignals replies n stopOn 0) ++ roundSignals replies n stopOn (0 + 1))
      omega
  · intro replies n stopOn minI maxI h
    exact loopAux_broke_minI replies n stopOn minI maxI 0 [] h

/-- C5, witness: a roster of 5 voting 100% completion in every round with
`min_iterations = 2` and `max_iterations = 4` still runs at least 2
iterations. -/
theorem c5_min_iterations_witness :
    2 ≤ (workflowLoop (repliesK 5) 5 true 2 4).iterationsRun :=
  c5_min_iterations_gate.1 (repliesK 5) 5 true 4 (by decide)

/-! ## Claims C8, C10, C1: `update_file`, `create_file` and sandboxing -/

/-- C8.  `update_file` is idempotent on identical content: when the file at
the resolved path already holds exactly the new content, the call returns
`True` and the whole manager state — files, backups, directories and the
operation history — is unchanged (the source returns before writing
anything or appending to `file_history`). -/
theorem c8_update_idempotent (st : FMState) (p c a : String)
    (h : st.files.lookup (normJoin st.project_path (splitPath p)) = some c) :
    update_file st p c a = (true, st) := by
  simp only [update_file]
  rw [h]
  simp

/-- C8, witness: create `a.txt` with content `hi`, then update it with the
identical content — the update reports success and changes nothing. -/
theorem c8_update_idempotent_witness :
    update_file (create_file (initFM ["ws"]) "a.txt" "hi" "Dev").2 "a.txt" "hi" "QA"
      = (true, (create_file (initFM ["ws"]) "a.txt" "hi" "Dev").2) :=
  c8_update_idempotent (create_file (initFM ["ws"]) "a.txt" "hi" "Dev").2
    "a.txt" "hi" "QA" (by decide)

/-- C10, counterexample.  Updating a path that does not exist is not
always a successful create: `update_file` runs no `mkdir`, so with the
parent directory `sub` absent the write raises `FileNotFoundError` and
the call returns `False`, changing nothing — the claim's `for every
path ... returns True` fails. -/
theorem c10_update_absent_cex :
    update_file (initFM ["ws"]) "sub/a.txt" "x" "Dev" = (false, initFM ["ws"]) := by
  decide

/-- C10, amended.  For a path that does not exist *whose parent directory
exists*, `update_file` silently creates the file with the given content,
makes no backup copy, appends a successful `update` history record and
returns `True`; when the parent directory is missing the call instead
returns `False` (unlike `create_file`, which creates parent directories). -/
theorem c10_update_creates (st : FMState) (p c a : String)
    (h1 : st.files.lookup (normJoin st.project_path (splitPath p)) = none)
    (h2 : dirExists st (normJoin st.project_path (splitPath p)).dropLast = true) :
    update_file st p c a =
      (true, ⟨st.project_path, setFile st.files (normJoin st.project_path (splitPath p)) c,
              st.dirs, st.file_history ++ [⟨"update", p, a, true⟩]⟩) := by
  simp only [update_file]
  rw [h1, h2]
  simp

/-- C10, witness: updating the absent `a.txt` directly under the existing
workspace root creates it with no backup and reports success. -/
theorem c10_update_creates_witness :
    update_file (initFM ["ws"]) "a.txt" "x" "Dev" =
      (true, ⟨["ws"], setFile (initFM ["ws"]).files (normJoin ["ws"] (splitPath "a.txt")) "x",
              (initFM ["ws"]).dirs, (initFM ["ws"]).file_history ++ [⟨"update", "a.txt", "Dev", true⟩]⟩) :=
  c10_update_creates (initFM ["ws"]) "a.txt" "x" "Dev" (by decide) (by decide)

/-- C1, counterexample.  With workspace root `home/proj`, creating
`../evil.txt` succeeds (returns `True`) and writes `home/evil.txt`,
which is outside the root; updating the absent `../evil2.txt` likewise
succeeds and writes outside the root; and the parser's sanitisation keeps
`../../etc/passwd` intact (backticks stripped, dots and slashes kept), so
traversal paths reach the file manager.  No `IOError` arises anywhere —
the claim that such calls fail and write nothing outside the root is
false. -/
theorem c1_sandbox_cex :
    (create_file (initFM ["home", "proj"]) "../evil.txt" "pwn" "M").1 = true ∧
    (create_file (initFM ["home", "proj"]) "../evil.txt" "pwn" "M").2.files.lookup
      ["home", "evil.txt"] = some "pwn" ∧
    startsWithG ["home", "proj"] ["home", "evil.txt"] = false ∧
    (update_file (create_file (initFM ["home", "proj"]) "../evil.txt" "pwn" "M").2
      "../evil2.txt" "pwn2" "M").1 = true ∧
    (update_file (create_file (initFM ["home", "proj"]) "../evil.txt" "pwn" "M").2
      "../evil2.txt" "pwn2" "M").2.files.lookup ["home", "evil2.txt"] = some "pwn2" ∧
    startsWithG ["home", "proj"] ["home", "evil2.txt"] = false ∧
    sanitizeFilePath "`../../etc/passwd`".data = "../../etc/passwd".data := by
  decide

/-- C1, amended.  Neither `create_file` nor `update_file` performs any
sandbox check: `create_file` always succeeds and writes the content at the
join of the root and the candidate path with `..` segments resolved by the
operating system — also when that resolved path lies outside the
workspace root (`update_file` behaves the same whenever the write itself
can proceed, see `c1_sandbox_cex`).  The parser's character-class
sanitisation keeps `.` and `/`, so `../` sequences pass through it
unchanged, and `..` joined under a root steps outside it. -/
theorem c1_no_sandbox :
    (∀ (st : FMState) (p c a : String),
      (create_file st p c a).1 = true ∧
      (create_file st p c a).2.files.lookup
        (normJoin st.project_path (splitPath p)) = some c) ∧
    sanitizeFilePath "../secret.txt".data = "../secret.txt".data ∧
    normJoin ["home", "proj"] ["..", "evil.txt"] = ["home", "evil.txt"] := by
  refine ⟨fun st p c a => ⟨rfl, ?_⟩, by decide, by decide⟩
  simp [create_file, setFile, List.lookup]

/-! ## Claims C9, C6: the test runner and the no-framework round -/

theorem parseBranches_success (E : FailureExtractors) (out err : String) (rc : Int)
    (fw : String) : (parseBranches E out err rc fw).success = (rc == 0) := by
  simp only [parseBranches]
  repeat' split
  all_goals rfl

theorem parseBranches_errors (E : FailureExtractors) (out err : String) (rc : Int)
    (fw : String) : (parseBranches E out err rc fw).errors = [] := by
  simp only [parseBranches]
  repeat' split
  all_goals rfl

theorem parse_test_output_success (E : FailureExtractors) (out err : String) (rc : Int)
    (fw : String) : (parse_test_output E out err rc fw).success = (rc == 0) := by
  simp only [parse_test_output]
  split
  · exact parseBranches_success E out err rc fw
  · exact parseBranches_success E out err rc fw

theorem parse_test_output_total (E : FailureExtractors) (out err : String) (rc : Int)
    (fw : String) :
    (parse_test_output E out err rc fw).total_tests =
      (parseBranches E out err rc fw).total_tests := by
  simp only [parse_test_output]
  split
  · rfl
  · rfl

theorem parse_test_output_fallback (E : FailureExtractors) (out err : String) (rc : Int)
    (fw : String) (h1 : rc ≠ 0)
    (h2 : (parse_test_output E out err rc fw).total_tests = 0) :
    (parse_test_output E out err rc fw).errors ≠ [] ∧
      (parse_test_output E out err rc fw).failed = 1 := by
  have htot : (parseBranches E out err rc fw).total_tests = 0 := by
    rw [← parse_test_output_total E out err rc fw]
    exact h2
  have hcond : ((parseBranches E out err rc fw).total_tests = 0 && rc ≠ 0) = true := by
    simp [htot, h1]
  simp only [parse_test_output, hcond, if_true]
  refine ⟨?_, by trivial⟩
  rw [parseBranches_errors]
  simp

/-- C9.  `run_tests` is total over all subprocess outcomes and reports
errors as data: (a) a timeout yields a report with `success = false` and a
descriptive synthetic entry in `errors`; (b) a spawn failure likewise;
(c) a completed run with a non-zero exit code whose output yields no
parseable test counts (`total_tests = 0`) yields `success = false` with an
opaque entry in `errors` and `failed = 1`; and (d) `success = true` only
ever arises from a completed run whose exit code is 0. -/
theorem c9_run_tests_reports (E : FailureExtractors) (m : TestMarkers)
    (oracle : String → SubOutcome) (custom : Option String) :
    (∀ cmd, resolveCommand custom m = some cmd → oracle cmd = SubOutcome.timeout →
      (run_tests E m oracle custom).report.success = false ∧
      (run_tests E m oracle custom).report.errors ≠ []) ∧
    (∀ cmd msg, resolveCommand custom m = some cmd →
      oracle cmd = SubOutcome.spawnError msg →
      (run_tests E m oracle custom).report.success = false ∧
      (run_tests E m oracle custom).report.errors ≠ []) ∧
    (∀ cmd out err rc, resolveCommand custom m = some cmd →
      oracle cmd = SubOutcome.completed out err rc → rc ≠ 0 →
      (run_tests E m oracle custom).report.total_tests = 0 →
      (run_tests E m oracle custom).report.success = false ∧
      (run_tests E m oracle custom).report.errors ≠ [] ∧
      (run_tests E m oracle custom).report.failed = 1) ∧
    ((run_tests E m oracle custom).report.success = true →
      ∃ cmd out err, resolveCommand custom m = some cmd ∧
        oracle cmd = SubOutcome.completed out err 0) := by
  refine ⟨?_, ?_, ?_, ?_⟩
  · intro cmd hres hor
    have hrun : run_tests E m oracle custom = ⟨timeoutReport cmd, true⟩ := by
      simp [run_tests, hres, hor]
    rw [hrun]
    exact ⟨rfl, by simp [timeoutReport]⟩
  · intro cmd msg hres hor
    have hrun : run_tests E m oracle custom = ⟨spawnErrorReport cmd msg, true⟩ := by
      simp [run_tests, hres, hor]
    rw [hrun]
    exact ⟨rfl, by simp [spawnErrorReport]⟩
  · intro cmd out err rc hres hor hrc htot
    have hrun : run_tests E m oracle custom = ⟨parse_test_output E out err rc cmd, true⟩ := by
      simp [run_tests, hres, hor]
    rw [hrun] at htot ⊢
    have hsucc := parse_test_output_success E out err rc cmd
    have hfb := parse_test_output_fallback E out err rc cmd hrc htot
    refine ⟨?_, hfb.1, hfb.2⟩
    rw [hsucc]
    simp [hrc]
  · intro hsucc
    cases hres : resolveCommand custom m with
    | none =>
      simp only [run_tests, hres] at hsucc
      exact absurd hsucc (by simp [noFrameworkReport])
    | some cmd =>
      cases hor : oracle cmd with
      | completed out err rc =>
        simp only [run_tests, hres, hor] at hsucc
        rw [parse_test_output_success] at hsucc
        have hrc : rc = 0 := by simpa using hsucc
        exact ⟨cmd, out, err, rfl, by rw [hor, hrc]⟩
      | timeout =>
        simp only [run_tests, hres, hor] at hsucc
        exact absurd hsucc (by simp [timeoutReport])
      | spawnError msg =>
        simp only [run_tests, hres, hor] at hsucc
        exact absurd hsucc (by simp [spawnErrorReport])

/-- C9, witness: with a pytest workspace, a timeout leaves a synthetic
error entry; a spawn failure reports `success = false`; a completed run
with exit code 2 and unparseable output reports `failed = 1`; a completed
run with exit code 0 is the only way the concrete all-passing oracle's
success arose. -/
theorem c9_run_tests_witness :
    (run_tests noExtractors pyMarkers (fun _ => SubOutcome.timeout) none).report.errors ≠ [] ∧
    (run_tests noExtractors pyMarkers
      (fun _ => SubOutcome.spawnError "boom") none).report.success = false ∧
    (run_tests noExtractors pyMarkers
      (fun _ => SubOutcome.completed "garbage" "" 2) none).report.failed = 1 ∧
    (∃ cmd out err, resolveCommand none pyMarkers = some cmd ∧
      (fun _ => SubOutcome.completed "5 passed" "" 0) cmd =
        SubOutcome.completed out err 0) := by
  refine ⟨?_, ?_, ?_, ?_⟩
  · exact ((c9_run_tests_reports noExtractors pyMarkers (fun _ => SubOutcome.timeout)
      none).1 "pytest -v" (by decide) rfl).2
  · exact ((c9_run_tests_reports noExtractors pyMarkers
      (fun _ => SubOutcome.spawnError "boom") none).2.1 "pytest -v" "boom"
      (by decide) rfl).1
  · exact ((c9_run_tests_reports noExtractors pyMarkers
      (fun _ => SubOutcome.completed "garbage" "" 2) none).2.2.1 "pytest -v"
      "garbage" "" 2 (by decide) rfl (by decide) (by decide)).2.2
  · exact (c9_run_tests_reports noExtractors pyMarkers
      (fun _ => SubOutcome.completed "5 passed" "" 0) none).2.2.2 (by decide)

/-- C6, counterexample.  In a workspace with no recognised test setup and
no override command, `run_tests` is still invoked and returns a synthetic
report with `success = false` (without spawning a subprocess); the
workflow's feedback branch then sees a failing report, so with
`iteration = 1`, `max_iterations = 3` and a developer on the roster the
failure feedback is generated and the fix sub-round runs — the claimed
no-op does not happen. -/
theorem c6_no_framework_cex :
    detect_test_framework noMarkers = none ∧
    (run_tests noExtractors noMarkers (fun _ => SubOutcome.timeout) none).spawned = false ∧
    (run_tests noExtractors noMarkers (fun _ => SubOutcome.timeout) none).report.success
      = false ∧
    feedbackGenerated true 1 3
      (run_tests noExtractors noMarkers (fun _ => SubOutcome.timeout) none).report.success
      = true ∧
    fixRoundRuns true 1 3
      (run_tests noExtractors noMarkers (fun _ => SubOutcome.timeout) none).report.success
      ["Backend Developer"] = true := by
  decide

/-- C6, amended.  When `detect_test_framework` returns `none` and no
override command is given, no subprocess is spawned, but `run_tests` is
still called and returns a report with `success = false`; the TestAndFix
phase therefore treats the iteration as a failing one: whenever
`0 < iteration < max_iterations - 1` and the roster contains a
developer-role agent, the failure feedback is generated and the fix
sub-round with the developer agents runs. -/
theorem c6_no_framework_fix_round (E : FailureExtractors) (m : TestMarkers)
    (oracle : String → SubOutcome) (iteration maxI : Nat) (roles : List String)
    (hdet : detect_test_framework m = none) :
    (run_tests E m oracle none).spawned = false ∧
    (run_tests E m oracle none).report.success = false ∧
    (0 < iteration → iteration < maxI - 1 → developer_agents roles ≠ [] →
      fixRoundRuns true iteration maxI (run_tests E m oracle none).report.success roles
        = true) := by
  have hres : resolveCommand none m = none := by
    simp [resolveCommand, hdet]
  have hrun : run_tests E m oracle none = ⟨noFrameworkReport, false⟩ := by
    simp [run_tests, hres]
  rw [hrun]
  refine ⟨rfl, rfl, ?_⟩
  intro h1 h2 h3
  show fixRoundRuns true iteration maxI false roles = true
  simp only [fixRoundRuns, feedbackGenerated]
  cases hD : developer_agents roles with
  | nil => exact absurd hD h3
  | cons x xs => simp [h1, h2, hD]

/-- C6, witness: the amended statement at the concrete no-marker
workspace, iteration 1 of 3, with one backend developer on the roster. -/
theorem c6_no_framework_fix_round_witness :
    (run_tests noExtractors noMarkers (fun _ => SubOutcome.spawnError "unused") none).spawned
      = false ∧
    fixRoundRuns true 1 3
      (run_tests noExtractors noMarkers
        (fun _ => SubOutcome.spawnError "unused") none).report.success
      ["Backend Developer", "QA Tester"] = true := by
  have h := c6_no_framework_fix_round noExtractors noMarkers
    (fun _ => SubOutcome.spawnError "unused") 1 3 ["Backend Developer", "QA Tester"]
    (by decide)
  exact ⟨h.1, h.2.2 (by decide) (by decide) (by decide)⟩

/-! ## Claim C7: `_is_completion_signal` matching -/

theorem startsWithG_mem {α : Type} [DecidableEq α] :
    ∀ (n h : List α), startsWithG n h = true → ∀ c ∈ n, c ∈ h := by
  intro n
  induction n with
  | nil => intro h _ c hc; exact absurd hc (List.not_mem_nil c)
  | cons a as ih =>
    intro h hs c hc
    cases h with
    | nil => exact absurd hs (by simp [startsWithG])
    | cons b bs =>
      have h2 := (Bool.and_eq_true _ _).mp hs
      have hab : a = b := of_decide_eq_true h2.1
      rcases List.mem_cons.mp hc with rfl | hmem
      · exact List.mem_cons.mpr (Or.inl hab)
      · exact List.mem_cons.mpr (Or.inr (ih bs h2.2 c hmem))

theorem strIn_mem : ∀ (n h : List Char), strIn n h = true → ∀ c ∈ n, c ∈ h := by
  intro n h
  induction h with
  | nil =>
    intro hs c hc
    have : n = [] := List.isEmpty_iff.mp hs
    subst this
    exact absurd hc (List.not_mem_nil c)
  | cons x t ih =>
    intro hs c hc
    rcases Bool.or_eq_true_iff.mp hs with h1 | h1
    · exact startsWithG_mem n (x :: t) h1 c hc
    · exact List.mem_cons.mpr (Or.inr (ih h1 c hc))

theorem charLower_ne_T : ∀ c : Char, charLower c ≠ 'T' := by
  intro c h
  by_cases hA : c = 'A'
  · subst hA; exact absurd h (by decide)
  by_cases hB : c = 'B'
  · subst hB; exact absurd h (by decide)
  by_cases hC : c = 'C'
  · subst hC; exact absurd h (by decide)
  by_cases hD : c = 'D'
  · subst hD; exact absurd h (by decide)
  by_cases hE : c = 'E'
  · subst hE; exact absurd h (by decide)
  by_cases hF : c = 'F'
  · subst hF; exact absurd h (by decide)
  by_cases hG : c = 'G'
  · subst hG; exact absurd h (by decide)
  by_cases hH : c = 'H'
  · subst hH; exact absurd h (by decide)
  by_cases hI : c = 'I'
  · subst hI; exact absurd h (by decide)
  by_cases hJ : c = 'J'
  · subst hJ; exact absurd h (by decide)
  by_cases hK : c = 'K'
  · subst hK; exact absurd h (by decide)
  by_cases hL : c = 'L'
  · subst hL; exact absurd h (by decide)
  by_cases hM : c = 'M'
  · subst hM; exact absurd h (by decide)
  by_cases hN : c = 'N'
  · subst hN; exact absurd h (by decide)
  by_cases hO : c = 'O'
  · subst hO; exact absurd h (by decide)
  by_cases hP : c = 'P'
  · subst hP; exact absurd h (by decide)
  by_cases hQ : c = 'Q'
  · subst hQ; exact absurd h (by decide)
  by_cases hR : c = 'R'
  · subst hR; exact absurd h (by decide)
  by_cases hS : c = 'S'
  · subst hS; exact absurd h (by decide)
  by_cases hT : c = 'T'
  · subst hT; exact absurd h (by decide)
  by_cases hU : c = 'U'
  · subst hU; exact absurd h (by decide)
  by_cases hV : c = 'V'
  · subst hV; exact absurd h (by decide)
  by_cases hW : c = 'W'
  · subst hW; exact absurd h (by decide)
  by_cases hX : c = 'X'
  · subst hX; exact absurd h (by decide)
  by_cases hY : c = 'Y'
  · subst hY; exact absurd h (by decide)
  by_cases hZ : c = 'Z'
  · subst hZ; exact absurd h (by decide)
  simp only [charLower, if_neg hA, if_neg hB, if_neg hC, if_neg hD, if_neg hE, if_neg hF, if_neg hG, if_neg hH, if_neg hI, if_neg hJ, if_neg hK, if_neg hL, if_neg hM, if_neg hN, if_neg hO, if_neg hP, if_neg hQ, if_neg hR, if_neg hS, if_neg hT, if_neg hU, if_neg hV, if_neg hW, if_neg hX, if_neg hY, if_neg hZ] at h
  exact hT h

/-- C7, counterexample.  `TASK_DONE` is in the completion vocabulary, yet
a reply consisting of (or containing) the sentinel exactly as documented
is not classified as a completion signal: the keyword is compared in
upper case against the lowercased reply, so it can never match. -/
theorem c7_task_done_cex :
    "TASK_DONE" ∈ completion_keywords ∧
    is_completion_signal "TASK_DONE" = false ∧
    is_completion_signal "All done now. TASK_DONE" = false := by
  decide

/-- C7, amended.  `_is_completion_signal` is a case-insensitive substring
match with one exception: (1) the result depends only on the lowercased
reply, so any two replies equal up to letter case classify alike; (2) a
reply whose lowering contains any vocabulary phrase other than
`TASK_DONE` yields true; (3) a reply whose lowering contains `no more`
together with one of `changes`/`improvements`/`updates`/`modifications`
yields true; but (4) the sentinel `TASK_DONE` can never match, in any
letter case, because it is compared verbatim (upper case) against the
lowercased reply. -/
theorem c7_completion_signal_matching :
    (∀ s t : String, pyLower s = pyLower t →
      is_completion_signal s = is_completion_signal t) ∧
    (∀ (s k : String), k ∈ completion_keywords → k ≠ "TASK_DONE" →
      strInS k (pyLower s) = true → is_completion_signal s = true) ∧
    (∀ s : String, strInS "no more" (pyLower s) = true →
      (strInS "changes" (pyLower s) = true ∨ strInS "improvements" (pyLower s) = true ∨
       strInS "updates" (pyLower s) = true ∨ strInS "modifications" (pyLower s) = true) →
      is_completion_signal s = true) ∧
    (∀ s : String, strInS "TASK_DONE" (pyLower s) = false) := by
  refine ⟨?_, ?_, ?_, ?_⟩
  · intro s t h
    simp only [is_completion_signal]
    rw [h]
  · intro s k hk _ hin
    have hany : (completion_keywords.any (fun k' => strInS k' (pyLower s))) = true :=
      List.any_eq_true.mpr ⟨k, hk, hin⟩
    simp [is_completion_signal, hany]
  · intro s h1 h2
    have hB : (strInS "no more" (pyLower s) &&
        (["changes", "improvements", "updates", "modifications"].any
          (fun w => strInS w (pyLower s)))) = true := by
      rw [Bool.and_eq_true]
      refine ⟨h1, List.any_eq_true.mpr ?_⟩
      rcases h2 with h | h | h | h
      · exact ⟨"changes", by simp, h⟩
      · exact ⟨"improvements", by simp, h⟩
      · exact ⟨"updates", by simp, h⟩
      · exact ⟨"modifications", by simp, h⟩
    simp only [is_completion_signal]
    split
    · rfl
    · simp [hB]
  · intro s
    cases h : strIn "TASK_DONE".data (pyLower s).data with
    | false => exact h
    | true =>
      exfalso
      have hmem : 'T' ∈ (pyLower s).data := strIn_mem _ _ h 'T' (by simp)
      rcases List.mem_map.mp hmem with ⟨c, _, hc⟩
      exact charLower_ne_T c hc

/-- C7, witness: an upper-case vocabulary phrase matches, the
`no more` + `changes` pattern matches across case, and the lowering of
the sentinel reply itself contains no `TASK_DONE`. -/
theorem c7_completion_signal_witness :
    is_completion_signal "ALL TESTS PASSING!" = true ∧
    is_completion_signal "No more CHANGES required." = true ∧
    strInS "TASK_DONE" (pyLower "TASK_DONE") = false := by
  refine ⟨?_, ?_, ?_⟩
  · exact c7_completion_signal_matching.2.1 "ALL TESTS PASSING!" "all tests passing"
      (by decide) (by decide) (by decide)
  · exact c7_completion_signal_matching.2.2.1 "No more CHANGES required."
      (by decide) (Or.inl (by decide))
  · exact c7_completion_signal_matching.2.2.2 "TASK_DONE"

/-! ## Claim C3: lemmas about prefix and substring scanning -/

theorem startsWithG_append_self {α : Type} [DecidableEq α] :
    ∀ (l x : List α), startsWithG l (l ++ x) = true := by
  intro l x
  induction l with
  | nil => rfl
  | cons a as ih => simp [startsWithG, ih]

theorem startsWithG_indep {α : Type} [DecidableEq α] :
    ∀ (n a b : List α), n.length ≤ a.length →
      startsWithG n (a ++ b) = startsWithG n a := by
  intro n
  induction n with
  | nil => intro a b _; rfl
  | cons c n' ih =>
    intro a b hlen
    cases a with
    | nil => simp at hlen
    | cons x a' =>
      simp only [List.cons_append, startsWithG]
      congr 1
      exact ih a' b (by simpa using hlen)

theorem startsWithG_drop_suffix {α : Type} [DecidableEq α] :
    ∀ (x n y : List α), startsWithG n (x ++ y) = true →
      startsWithG (n.drop x.length) y = true := by
  intro x
  induction x with
  | nil => intro n y h; exact h
  | cons a x' ih =>
    intro n y h
    cases n with
    | nil => simp [startsWithG]
    | cons c n' =>
      simp only [List.cons_append, startsWithG, Bool.and_eq_true] at h
      simpa using ih n' y h.2

theorem startsWithG_ne_nil {α : Type} [DecidableEq α] :
    ∀ (m : List α) (x : α) (b : List α), m ≠ [] → startsWithG m (x :: b) = true →
      x ∈ m := by
  intro m x b hm h
  cases m with
  | nil => exact absurd rfl hm
  | cons c m' =>
    simp only [startsWithG, Bool.and_eq_true] at h
    have : c = x := of_decide_eq_true h.1
    subst this
    exact List.mem_cons_self c m'

theorem strIn_of_startsWith : ∀ (n h : List Char), h ≠ [] →
    startsWithG n h = true → strIn n h = true := by
  intro n h hne hs
  cases h with
  | nil => exact absurd rfl hne
  | cons x t => simp [strIn, hs]

theorem strIn_append_right : ∀ (a n b : List Char), strIn n b = true →
    strIn n (a ++ b) = true := by
  intro a
  induction a with
  | nil => intro n b h; exact h
  | cons x a' ih =>
    intro n b h
    simp only [List.cons_append, strIn, Bool.or_eq_true]
    exact Or.inr (ih n b h)

theorem strIn_cons_split : ∀ (n : List Char) (x : List Char) (c : Char),
    strIn n (c :: x) = (startsWithG n (c :: x) || strIn n x) := by
  intro n x c
  rfl

theorem strIn_drop : ∀ (k : Nat) (n l : List Char), strIn n (l.drop k) = true →
    strIn n l = true := by
  intro k
  induction k with
  | zero => intro n l h; exact h
  | succ k' ih =>
    intro n l h
    cases l with
    | nil => exact h
    | cons x t =>
      simp only [List.drop_succ_cons] at h
      simp only [strIn, Bool.or_eq_true]
      exact Or.inr (ih n t h)

theorem strIn_nonempty : ∀ (n l : List Char), strIn n l = false → n ≠ [] := by
  intro n l h hn
  subst hn
  cases l with
  | nil => simp [strIn] at h
  | cons x t => simp [strIn, startsWithG] at h

theorem strIn_cons_parts (n : List Char) (x : Char) (t : List Char)
    (h : strIn n (x :: t) = false) :
    startsWithG n (x :: t) = false ∧ strIn n t = false := by
  rw [strIn_cons_split n t x] at h
  exact Bool.or_eq_false_iff.mp h

theorem firstIdx_cons (n : List Char) (x : Char) (t : List Char) :
    firstIdx n (x :: t) =
      if startsWithG n (x :: t) then some 0 else (firstIdx n t).map (· + 1) := rfl

theorem firstIdx_skip_nl (n : List Char) (hnl : '\n' ∉ n) :
    ∀ (a b : List Char), strIn n a = false →
      firstIdx n (a ++ '\n' :: b) = (firstIdx n ('\n' :: b)).map (· + a.length) := by
  intro a
  induction a with
  | nil =>
    intro b _
    cases h : firstIdx n ('\n' :: b) <;> simp [h]
  | cons x a' ih =>
    intro b hstr
    have hparts := strIn_cons_parts n x a' hstr
    have hcond : startsWithG n (x :: (a' ++ '\n' :: b)) = false := by
      show startsWithG n ((x :: a') ++ '\n' :: b) = false
      by_cases hlen : n.length ≤ (x :: a').length
      · rw [startsWithG_indep n (x :: a') ('\n' :: b) hlen]
        exact hparts.1
      · cases hsw : startsWithG n ((x :: a') ++ '\n' :: b) with
        | false => rfl
        | true =>
          exfalso
          have hdrop := startsWithG_drop_suffix (x :: a') n ('\n' :: b) hsw
          have hne : n.drop (x :: a').length ≠ [] := by
            intro hc
            rw [List.drop_eq_nil_iff] at hc
            omega
          have hmem := startsWithG_ne_nil (n.drop (x :: a').length) '\n' b hne hdrop
          exact hnl (List.mem_of_mem_drop hmem)
    show firstIdx n (x :: (a' ++ '\n' :: b)) = _
    rw [firstIdx_cons, hcond]
    simp only [Bool.false_eq_true, if_false]
    rw [ih b hparts.2]
    cases h : firstIdx n ('\n' :: b) <;> simp [h, List.length_cons] <;> try omega

theorem firstIdx_skip_tail (n : List Char) (c : Char) (n' : List Char)
    (hn : n = c :: n') :
    ∀ (a b : List Char), strIn n a = false →
      (∀ x ∈ a.drop (a.length + 1 - n.length), x ≠ c) →
      firstIdx n (a ++ b) = (firstIdx n b).map (· + a.length) := by
  intro a
  induction a with
  | nil =>
    intro b _ _
    cases h : firstIdx n b <;> simp [h]
  | cons x a' ih =>
    intro b hstr htail
    have hparts := strIn_cons_parts n x a' hstr
    have hcond : startsWithG n (x :: (a' ++ b)) = false := by
      show startsWithG n ((x :: a') ++ b) = false
      by_cases hlen : n.length ≤ (x :: a').length
      · rw [startsWithG_indep n (x :: a') b hlen]
        exact hparts.1
      · have hidx : (x :: a').length + 1 - n.length = 0 := by
          simp only [List.length_cons] at *
          omega
        have hx : x ≠ c := htail x (by rw [hidx]; exact List.mem_cons_self x a')
        have hd : (decide (c = x)) = false :=
          decide_eq_false (fun h => hx (Eq.symm h))
        subst hn
        simp [startsWithG, hd]
    have htail' : ∀ y ∈ a'.drop (a'.length + 1 - n.length), y ≠ c := by
      intro y hy
      apply htail
      by_cases hc2 : n.length ≤ a'.length + 1
      · have : (x :: a').length + 1 - n.length = (a'.length + 1 - n.length) + 1 := by
          simp only [List.length_cons]
          omega
        rw [this, List.drop_succ_cons]
        exact hy
      · have h0 : (x :: a').length + 1 - n.length = 0 ∨
            (x :: a').length + 1 - n.length = 1 := by
          simp only [List.length_cons]
          omega
        have hy' : y ∈ a' := List.mem_of_mem_drop hy
        rcases h0 with h0 | h0
        · rw [h0]
          exact List.mem_cons_of_mem x hy'
        · rw [h0, List.drop_succ_cons, List.drop_zero]
          exact hy'
    show firstIdx n (x :: (a' ++ b)) = _
    rw [firstIdx_cons, hcond]
    simp only [Bool.false_eq_true, if_false]
    rw [ih b hparts.2 htail']
    cases h : firstIdx n b <;> simp [h, List.length_cons] <;> try omega

theorem firstIdx_cons_ne (n : List Char) (c : Char) (n' : List Char)
    (hn : n = c :: n') (x : Char) (hne : c ≠ x) (t : List Char) :
    firstIdx n (x :: t) = (firstIdx n t).map (· + 1) := by
  subst hn
  have hd : (decide (c = x)) = false := decide_eq_false hne
  simp [firstIdx, startsWithG, hd]

theorem firstIdx_found (n b : List Char) (hb : b ≠ []) (h : startsWithG n b = true) :
    firstIdx n b = some 0 := by
  cases b with
  | nil => exact absurd rfl hb
  | cons x t => simp [firstIdx, h]

theorem takeWhile_append_all (p : Char → Bool) :
    ∀ (a b : List Char), (∀ c ∈ a, p c = true) →
      (a ++ b).takeWhile p = a ++ b.takeWhile p := by
  intro a
  induction a with
  | nil => intro b _; rfl
  | cons x a' ih =>
    intro b h
    have hx : p x = true := h x (List.mem_cons_self x a')
    simp only [List.cons_append, List.takeWhile_cons, hx, if_true]
    rw [ih b (fun c hc => h c (List.mem_cons_of_mem x hc))]

theorem dropWhile_append_all (p : Char → Bool) :
    ∀ (a b : List Char), (∀ c ∈ a, p c = true) →
      (a ++ b).dropWhile p = b.dropWhile p := by
  intro a
  induction a with
  | nil => intro b _; rfl
  | cons x a' ih =>
    intro b h
    have hx : p x = true := h x (List.mem_cons_self x a')
    simp only [List.cons_append, List.dropWhile_cons, hx, if_true]
    exact ih b (fun c hc => h c (List.mem_cons_of_mem x hc))

theorem takeWhile_cons_neg (p : Char → Bool) (x : Char) (t : List Char)
    (h : p x = false) : (x :: t).takeWhile p = [] := by
  simp [List.takeWhile_cons, h]

theorem dropWhile_cons_neg (p : Char → Bool) (x : Char) (t : List Char)
    (h : p x = false) : (x :: t).dropWhile p = x :: t := by
  simp [List.dropWhile_cons, h]

theorem lastNL_append :
    ∀ (a b : List Char), lastNL (a ++ b) =
      match lastNL b with
      | some j => some (a.length + j)
      | none => lastNL a := by
  intro a
  induction a with
  | nil =>
    intro b
    cases h : lastNL b <;> simp [h, lastNL]
  | cons x a' ih =>
    intro b
    show lastNL (x :: (a' ++ b)) = _
    simp only [lastNL, ih b]
    cases h : lastNL b with
    | some j =>
      simp [List.length_cons]
      try omega
    | none =>
      cases h2 : lastNL a' <;> simp [h2]

theorem lastNL_lt_length : ∀ (l : List Char) (j : Nat), lastNL l = some j →
    j < l.length := by
  intro l
  induction l with
  | nil => intro j h; simp [lastNL] at h
  | cons x t ih =>
    intro j h
    simp only [lastNL] at h
    cases h2 : lastNL t with
    | some i =>
      rw [h2] at h
      have := ih i h2
      simp only [Option.some.injEq] at h
      simp [← h, List.length_cons]
      omega
    | none =>
      rw [h2] at h
      by_cases hx : x = '\n'
      · simp [hx] at h
        simp [← h]
      · simp [hx] at h

theorem splitAtTick_tick (r : List Char) :
    splitAtTick (tripleTick ++ r) = some ([], r) := by
  have ht : tripleTick ++ r = '`' :: ('`' :: ('`' :: r)) := rfl
  rw [ht]
  have hs : startsWithG tripleTick ('`' :: ('`' :: ('`' :: r))) = true :=
    startsWithG_append_self tripleTick r
  simp [splitAtTick, hs]

theorem splitAtTick_after_nl :
    ∀ (b r : List Char), strIn tripleTick b = false → b.getLast? = some '\n' →
      splitAtTick (b ++ (tripleTick ++ r)) = some (b, r) := by
  intro b
  induction b with
  | nil => intro r _ h; simp at h
  | cons x t ih =>
    intro r hstr hlast
    have hparts := strIn_cons_parts tripleTick x t hstr
    have hcond : startsWithG tripleTick ((x :: t) ++ (tripleTick ++ r)) = false := by
      by_cases hlen : tripleTick.length ≤ (x :: t).length
      · rw [startsWithG_indep tripleTick (x :: t) (tripleTick ++ r) hlen]
        exact hparts.1
      · -- x :: t has length 1 or 2, and its last element is '\n'
        cases t with
        | nil =>
          have hx : x = '\n' := by simpa using hlast
          subst hx
          simp [tripleTick, startsWithG]
        | cons y t' =>
          cases t' with
          | nil =>
            have hy : y = '\n' := by simpa using hlast
            subst hy
            simp [tripleTick, startsWithG]
          | cons z t'' =>
            exfalso
            simp [List.length_cons, tripleTick] at hlen
            try omega
    show splitAtTick (x :: (t ++ (tripleTick ++ r))) = _
    rw [show splitAtTick (x :: (t ++ (tripleTick ++ r))) =
      (if startsWithG tripleTick (x :: (t ++ (tripleTick ++ r))) then
        some ([], (x :: (t ++ (tripleTick ++ r))).drop 3)
      else match splitAtTick (t ++ (tripleTick ++ r)) with
        | some (pre, rest) => some (x :: pre, rest)
        | none => none) from rfl]
    rw [show (x :: (t ++ (tripleTick ++ r))) = ((x :: t) ++ (tripleTick ++ r)) from rfl,
        hcond]
    simp only [Bool.false_eq_true, if_false]
    cases t with
    | nil =>
      rw [show ([] : List Char) ++ (tripleTick ++ r) = tripleTick ++ r from rfl,
          splitAtTick_tick r]
    | cons y t' =>
      have hlast' : (y :: t').getLast? = some '\n' := by
        rw [List.getLast?_cons_cons] at hlast
        exact hlast
      rw [ih r hparts.2 hlast']

theorem dropWhile_head_false (p : Char → Bool) :
    ∀ (l : List Char) (x : Char) (d : List Char), l.dropWhile p = x :: d →
      p x = false := by
  intro l
  induction l with
  | nil => intro x d h; simp [List.dropWhile] at h
  | cons c t ih =>
    intro x d h
    by_cases hc : p c = true
    · rw [List.dropWhile_cons, if_pos hc] at h
      exact ih x d h
    · rw [List.dropWhile_cons, if_neg hc] at h
      cases h
      simpa using hc

theorem dropWhile_append_cons (p : Char → Bool) :
    ∀ (a b : List Char) (x : Char) (d : List Char), a.dropWhile p = x :: d →
      (a ++ b).dropWhile p = x :: (d ++ b) := by
  intro a
  induction a with
  | nil => intro b x d h; simp [List.dropWhile] at h
  | cons c t ih =>
    intro b x d h
    by_cases hc : p c = true
    · rw [List.dropWhile_cons, if_pos hc] at h
      rw [List.cons_append, List.dropWhile_cons, if_pos hc]
      exact ih b x d h
    · rw [List.dropWhile_cons, if_neg hc] at h
      cases h
      rw [List.cons_append, List.dropWhile_cons, if_neg hc]

theorem strIn_append_last : ∀ (n a : List Char) (z : Char), strIn n a = false →
    z ∉ n → strIn n (a ++ [z]) = false := by
  intro n a
  induction a with
  | nil =>
    intro z hstr hz
    have hne := strIn_nonempty n [] hstr
    cases n with
    | nil => exact absurd rfl hne
    | cons c n' =>
      show (startsWithG (c :: n') [z] || strIn (c :: n') []) = false
      rw [Bool.or_eq_false_iff]
      constructor
      · cases hsw : startsWithG (c :: n') [z] with
        | false => rfl
        | true =>
          exfalso
          exact hz (startsWithG_ne_nil (c :: n') z [] (by simp) hsw)
      · simp [strIn]
  | cons x a' ih =>
    intro z hstr hz
    have hparts := strIn_cons_parts n x a' hstr
    have hcond : startsWithG n ((x :: a') ++ [z]) = false := by
      by_cases hlen : n.length ≤ (x :: a').length
      · rw [startsWithG_indep n (x :: a') [z] hlen]
        exact hparts.1
      · cases hsw : startsWithG n ((x :: a') ++ [z]) with
        | false => rfl
        | true =>
          exfalso
          have hdrop := startsWithG_drop_suffix (x :: a') n [z] hsw
          have hne : n.drop (x :: a').length ≠ [] := by
            intro hc
            rw [List.drop_eq_nil_iff] at hc
            omega
          exact hz (List.mem_of_mem_drop
            (startsWithG_ne_nil (n.drop (x :: a').length) z [] hne hdrop))
    show strIn n ((x :: a') ++ [z]) = false
    rw [List.cons_append, strIn_cons_split, Bool.or_eq_false_iff]
    exact ⟨by rw [← List.cons_append]; exact hcond, ih z hparts.2 hz⟩

theorem pyStripL_all_space (u : List Char) (h : ∀ c ∈ u, pySpace c = true) :
    pyStripL u = [] := by
  unfold pyStripL
  rw [List.dropWhile_eq_nil_iff.mpr h]
  rfl

theorem dropTrailingSpace_append_nl (a : List Char) :
    dropTrailingSpace (a ++ ['\n']) = dropTrailingSpace a := by
  unfold dropTrailingSpace
  rw [List.reverse_append,
     show (['\n'] : List Char).reverse = ['\n'] from rfl,
     dropWhile_append_all pySpace ['\n'] a.reverse
       (by intro c hc; simp at hc; simp [hc, pySpace])]

theorem pyStripL_append_nl (a : List Char) : pyStripL (a ++ ['\n']) = pyStripL a := by
  cases hD : a.dropWhile pySpace with
  | nil =>
    have hall := List.dropWhile_eq_nil_iff.mp hD
    rw [pyStripL_all_space a hall]
    apply pyStripL_all_space
    intro c hc
    rcases List.mem_append.mp hc with hc | hc
    · exact hall c hc
    · simp at hc
      simp [hc, pySpace]
  | cons x d =>
    unfold pyStripL
    rw [dropWhile_append_cons pySpace a ['\n'] x d hD, hD]
    rw [show x :: (d ++ ['\n']) = (x :: d) ++ ['\n'] from rfl]
    exact dropTrailingSpace_append_nl (x :: d)

theorem blockTail_spec (u r : List Char) (hu : strIn tripleTick u = false) :
    ∃ k C,
      lastNL (('\n' :: (u ++ ('\n' :: (tripleTick ++ r)))).takeWhile pySpace) = some k ∧
      splitAtTick (('\n' :: (u ++ ('\n' :: (tripleTick ++ r)))).drop (k + 1)) = some (C, r) ∧
      pyStripL C = pyStripL u := by
  have hnlsp : pySpace '\n' = true := by decide
  have htick : pySpace '`' = false := by decide
  cases hD : u.dropWhile pySpace with
  | nil =>
    have hall := List.dropWhile_eq_nil_iff.mp hD
    have hbws : ('\n' :: (u ++ ('\n' :: (tripleTick ++ r)))).takeWhile pySpace
        = '\n' :: (u ++ ['\n']) := by
      rw [List.takeWhile_cons, if_pos hnlsp,
          takeWhile_append_all pySpace u _ hall,
          List.takeWhile_cons, if_pos hnlsp,
          show (tripleTick ++ r).takeWhile pySpace = [] from
            takeWhile_cons_neg pySpace _ _ htick]
    refine ⟨u.length + 1, [], ?_, ?_, ?_⟩
    · rw [hbws,
          show ('\n' :: (u ++ ['\n'])) = (('\n' :: u) ++ ['\n']) from rfl,
          lastNL_append, show lastNL ['\n'] = some 0 from by decide]
      simp [List.length_cons]
    · have hdrop : ('\n' :: (u ++ ('\n' :: (tripleTick ++ r)))).drop (u.length + 1 + 1)
          = tripleTick ++ r := by
        rw [show ('\n' :: (u ++ ('\n' :: (tripleTick ++ r))))
              = (('\n' :: u) ++ ('\n' :: (tripleTick ++ r))) from rfl,
            List.drop_append_eq_append_drop]
        have h2 : ('\n' :: u).drop (u.length + 1 + 1) = [] := by
          rw [List.drop_eq_nil_iff]
          simp [List.length_cons]
        have h3 : u.length + 1 + 1 - ('\n' :: u).length = 1 := by
          simp [List.length_cons]
        rw [h2, h3]
        rfl
      rw [hdrop]
      exact splitAtTick_tick r
    · rw [pyStripL_all_space u hall]
      rfl
  | cons x d =>
    have hx : pySpace x = false := dropWhile_head_false pySpace u x d hD
    obtain ⟨w, hw_eq⟩ : ∃ w, u.takeWhile pySpace = w := ⟨_, rfl⟩
    have hw' : ∀ c ∈ w, pySpace c = true := by
      intro c hc
      rw [← hw_eq] at hc
      exact List.mem_takeWhile_imp hc
    have hu_eq : w ++ (x :: d) = u := by
      rw [← hw_eq, ← hD]
      exact List.takeWhile_append_dropWhile pySpace u
    have hbws : ('\n' :: (u ++ ('\n' :: (tripleTick ++ r)))).takeWhile pySpace
        = '\n' :: w := by
      rw [List.takeWhile_cons, if_pos hnlsp]
      congr 1
      rw [← hu_eq, List.append_assoc,
          takeWhile_append_all pySpace w _ hw',
          show (x :: d) ++ ('\n' :: (tripleTick ++ r))
            = x :: (d ++ ('\n' :: (tripleTick ++ r))) from rfl,
          takeWhile_cons_neg pySpace x _ hx]
      simp
    cases hLN : lastNL w with
    | none =>
      refine ⟨0, u ++ ['\n'], ?_, ?_, ?_⟩
      · rw [hbws]
        simp [lastNL, hLN]
      · have hdrop : ('\n' :: (u ++ ('\n' :: (tripleTick ++ r)))).drop 1
            = (u ++ ['\n']) ++ (tripleTick ++ r) := by
          simp [List.append_assoc]
        rw [hdrop]
        apply splitAtTick_after_nl
        · exact strIn_append_last tripleTick u '\n' hu (by decide)
        · exact List.getLast?_concat u
      · exact pyStripL_append_nl u
    | some j =>
      have hj := lastNL_lt_length w j hLN
      have hwlen : j < w.length := hj
      refine ⟨j + 1, (w.drop (j + 1) ++ (x :: d)) ++ ['\n'], ?_, ?_, ?_⟩
      · rw [hbws]
        simp [lastNL, hLN]
      · have hsub : w.drop (j + 1) ++ (x :: d) = u.drop (j + 1) := by
          rw [← hu_eq, List.drop_append_eq_append_drop]
          have h1 : j + 1 - w.length = 0 := by omega
          rw [h1, List.drop_zero]
        have hdrop : ('\n' :: (u ++ ('\n' :: (tripleTick ++ r)))).drop (j + 1 + 1)
            = ((w.drop (j + 1) ++ (x :: d)) ++ ['\n']) ++ (tripleTick ++ r) := by
          rw [List.drop_succ_cons, ← hu_eq, List.append_assoc,
              List.drop_append_eq_append_drop]
          have h1 : j + 1 - w.length = 0 := by omega
          rw [h1, List.drop_zero]
          simp [List.append_assoc]
        rw [hdrop]
        apply splitAtTick_after_nl
        · apply strIn_append_last
          · rw [hsub]
            cases hsi : strIn tripleTick (u.drop (j + 1)) with
            | false => rfl
            | true => exact absurd (strIn_drop (j + 1) tripleTick u hsi) (by simp [hu])
          · decide
        · exact List.getLast?_concat _
      · rw [pyStripL_append_nl]
        unfold pyStripL
        congr 1
        rw [dropWhile_append_all pySpace (w.drop (j + 1)) _
              (fun c hc => hw' c (List.mem_of_mem_drop hc)),
            dropWhile_cons_neg pySpace x d hx, hD]

theorem dropLit_self (l x : List Char) : dropLit l (l ++ x) = some x := by
  unfold dropLit
  rw [if_pos (startsWithG_append_self l x), List.drop_left]

theorem dropMarker_filename (y : List Char) :
    dropMarker ("filename:".data ++ y) = some y := by
  unfold dropMarker
  rw [dropLit_self]

theorem dropMarker_update (y : List Char) :
    dropMarker ("update:".data ++ y) = some y := by
  have h1 : dropLit "filename:".data ("update:".data ++ y) = none := by
    unfold dropLit
    rw [if_neg]
    simp [startsWithG]
  unfold dropMarker
  rw [h1, dropLit_self]

theorem matchBlockAt_block (mk pathTok u r : List Char)
    (hmk : dropMarker (mk ++ ([' '] ++ (pathTok ++ ('\n' :: (u ++ ('\n' :: (tripleTick ++ r)))))))
      = some ([' '] ++ (pathTok ++ ('\n' :: (u ++ ('\n' :: (tripleTick ++ r)))))))
    (hpne : pathTok ≠ [])
    (hpns : ∀ c ∈ pathTok, pySpace c = false)
    (hu : strIn tripleTick u = false) :
    ∃ C, matchBlockAt (tripleTick ++ (mk ++ ([' '] ++ (pathTok ++ ('\n' :: (u ++ ('\n' :: (tripleTick ++ r))))))))
        = some (pathTok, C, r) ∧ pyStripL C = pyStripL u := by
  obtain ⟨p, ps, rfl⟩ : ∃ p ps, pathTok = p :: ps := by
    cases pathTok with
    | nil => exact absurd rfl hpne
    | cons p ps => exact ⟨p, ps, rfl⟩
  obtain ⟨k, C, hk, hsplit, hstrip⟩ := blockTail_spec u r hu
  have h0 : dropLit tripleTick
      (tripleTick ++ (mk ++ ([' '] ++ ((p :: ps) ++ ('\n' :: (u ++ ('\n' :: (tripleTick ++ r))))))))
      = some (mk ++ ([' '] ++ ((p :: ps) ++ ('\n' :: (u ++ ('\n' :: (tripleTick ++ r))))))) :=
    dropLit_self _ _
  have h2 : ([' '] ++ ((p :: ps) ++ ('\n' :: (u ++ ('\n' :: (tripleTick ++ r)))))).dropWhile pySpace
      = (p :: ps) ++ ('\n' :: (u ++ ('\n' :: (tripleTick ++ r)))) := by
    rw [dropWhile_append_all pySpace [' '] _ (by intro c hc; simp at hc; simp [hc, pySpace])]
    exact dropWhile_cons_neg pySpace p _ (hpns p (List.mem_cons_self p ps))
  have h3 : ((p :: ps) ++ ('\n' :: (u ++ ('\n' :: (tripleTick ++ r))))).takeWhile
      (fun c => !pySpace c) = p :: ps := by
    rw [takeWhile_append_all (fun c => !pySpace c) (p :: ps) _
          (by intro c hc; simp [hpns c hc])]
    rw [takeWhile_cons_neg (fun c => !pySpace c) '\n' _ (by simp [pySpace])]
    simp
  have h4 : (p :: ps).isEmpty = false := rfl
  have h5 : ((p :: ps) ++ ('\n' :: (u ++ ('\n' :: (tripleTick ++ r))))).drop
      (p :: ps).length = '\n' :: (u ++ ('\n' :: (tripleTick ++ r))) := List.drop_left _ _
  refine ⟨C, ?_, hstrip⟩
  simp only [matchBlockAt, h0, hmk, h2, h3, h4, h5, hk, hsplit, Bool.false_eq_true,
    if_false]

theorem matchBlockAt_not_tick (c : Char) (t : List Char) (hc : c ≠ '`') :
    matchBlockAt (c :: t) = none := by
  have hd : (decide ('`' = c)) = false := decide_eq_false (fun h => hc h.symm)
  have h : startsWithG tripleTick (c :: t) = false := by
    show startsWithG ('`' :: ('`' :: ('`' :: []))) (c :: t) = false
    simp [startsWithG, hd]
  simp [matchBlockAt, dropLit, h]

theorem findBlocksAux_nil : ∀ fuel, findBlocksAux fuel [] = [] := by
  intro fuel
  cases fuel <;> rfl

theorem findBlocksAux_step_match (fuel : Nat) (cs : List Char) (hne : cs ≠ [])
    (p b rest : List Char) (hm : matchBlockAt cs = some (p, b, rest)) :
    findBlocksAux (fuel + 1) cs = (p, b) :: findBlocksAux fuel rest := by
  cases cs with
  | nil => exact absurd rfl hne
  | cons c t => simp [findBlocksAux, hm]

theorem findBlocksAux_step_skip (fuel : Nat) (c : Char) (t : List Char)
    (hm : matchBlockAt (c :: t) = none) :
    findBlocksAux (fuel + 1) (c :: t) = findBlocksAux fuel t := by
  simp [findBlocksAux, hm]

theorem findBlocks_c3 (u v : List Char)
    (hu : strIn tripleTick u = false) (hv : strIn tripleTick v = false) :
    ∃ C1 C2, findBlocks (c3TextL u v) = [("a.py".data, C1), ("b.py".data, C2)]
      ∧ pyStripL C1 = pyStripL u ∧ pyStripL C2 = pyStripL v := by
  obtain ⟨C1, hm1, hs1⟩ := matchBlockAt_block "filename:".data "a.py".data u
      ('\n' :: c3Block2 v) (dropMarker_filename _) (by decide) (by decide) hu
  obtain ⟨C2, hm2, hs2⟩ := matchBlockAt_block "update:".data "b.py".data v
      ([] : List Char) (dropMarker_update _) (by decide) (by decide) hv
  have hm1' : matchBlockAt (c3TextL u v) = some ("a.py".data, C1, '\n' :: c3Block2 v) := hm1
  have hm2' : matchBlockAt (c3Block2 v) = some ("b.py".data, C2, ([] : List Char)) := hm2
  have hT : c3TextL u v ≠ [] := by simp [c3TextL, tripleTick]
  have hB : c3Block2 v ≠ [] := by simp [c3Block2, tripleTick]
  refine ⟨C1, C2, ?_, hs1, hs2⟩
  obtain ⟨k, hk⟩ : ∃ k, (c3TextL u v).length = k + 3 :=
    ⟨(c3TextL u v).length - 3, by simp [c3TextL, c3Block2, tripleTick,
      List.length_append, List.length_cons]; try omega⟩
  unfold findBlocks
  rw [hk, show k + 3 = (k + 2) + 1 from rfl,
    findBlocksAux_step_match (k + 2) (c3TextL u v) hT _ _ _ hm1',
    show k + 2 = (k + 1) + 1 from rfl,
    findBlocksAux_step_skip (k + 1) '\n' (c3Block2 v)
      (matchBlockAt_not_tick '\n' (c3Block2 v) (by decide)),
    findBlocksAux_step_match k (c3Block2 v) hB _ _ _ hm2',
    findBlocksAux_nil]

theorem classifyOp_c3_a (u v : List Char) :
    classifyOp (c3TextL u v) "a.py".data = "create" := by
  have e1 : c3TextL u v = "```filename: ".data ++ ("a.py".data ++ ('\n' ::
      (u ++ ('\n' :: (tripleTick ++ ('\n' :: c3Block2 v)))))) := rfl
  have hidx : firstIdx "a.py".data (c3TextL u v) = some 13 := by
    rw [e1]
    rw [firstIdx_skip_tail "a.py".data 'a' ".py".data rfl "```filename: ".data _
      (by decide) (by decide)]
    rw [firstIdx_found "a.py".data _ (by simp) (startsWithG_append_self "a.py".data _)]
    rfl
  have htake : (c3TextL u v).take 13 = "```filename: ".data := by
    rw [e1]
    exact List.take_left' (by decide)
  have hw1 : strIn "```update:".data (lastSlice 50 ("```filename: ".data)) = false := by
    decide
  have hw2 : strIn "```read:".data (lastSlice 50 ("```filename: ".data)) = false := by
    decide
  have hw3 : strIn "```filename:".data (lastSlice 50 ("```filename: ".data)) = true := by
    decide
  simp only [classifyOp, hidx]
  rw [htake]
  simp [hw1, hw2, hw3]

theorem c3Pre_length (u : List Char) : (c3Pre u).length = u.length + 34 := by
  simp [c3Pre, tripleTick, List.length_append, List.length_cons]
  try omega

theorem c3Front_length (u : List Char) : (c3Front u).length = u.length + 19 := by
  simp [c3Front, tripleTick, List.length_append, List.length_cons]
  try omega

theorem c3Pre_split (u : List Char) : c3Pre u = c3Front u ++ c3Tail := by
  simp [c3Pre, c3Front, c3Tail, tripleTick]

theorem c3Pre_window (u : List Char) :
    lastSlice 50 (c3Pre u) = (c3Front u).drop (u.length + 34 - 50) ++ c3Tail := by
  unfold lastSlice
  rw [c3Pre_length, c3Pre_split, List.drop_append_eq_append_drop]
  congr 1
  rw [show u.length + 34 - 50 - (c3Front u).length = 0 from by rw [c3Front_length]; omega,
    List.drop_zero]

theorem classifyOp_c3_b (u v : List Char) (h3 : strIn "b.py".data u = false) :
    classifyOp (c3TextL u v) "b.py".data = "update" := by
  have hnin : '\n' ∉ "b.py".data := by decide
  have e2 : c3TextL u v = "```filename: a.py".data ++ ('\n' ::
      (u ++ ('\n' :: (tripleTick ++ ('\n' :: c3Block2 v))))) := rfl
  have hidx : firstIdx "b.py".data (c3TextL u v) = some (u.length + 34) := by
    rw [e2]
    rw [firstIdx_skip_nl "b.py".data hnin "```filename: a.py".data _ (by decide)]
    rw [firstIdx_cons_ne "b.py".data 'b' ".py".data rfl '\n' (by decide) _]
    rw [firstIdx_skip_nl "b.py".data hnin u _ h3]
    rw [firstIdx_cons_ne "b.py".data 'b' ".py".data rfl '\n' (by decide) _]
    rw [show tripleTick ++ ('\n' :: c3Block2 v)
        = "```\n```update: ".data ++ ("b.py".data ++ ('\n' :: (v ++ ('\n' ::
          (tripleTick ++ ([] : List Char)))))) from rfl]
    rw [firstIdx_skip_tail "b.py".data 'b' ".py".data rfl "```\n```update: ".data _
      (by decide) (by decide)]
    rw [firstIdx_found "b.py".data _ (by simp) (startsWithG_append_self "b.py".data _)]
    simp
    try omega
  have e6 : c3TextL u v = c3Pre u ++ ("b.py".data ++ ('\n' :: (v ++ ('\n' ::
      (tripleTick ++ ([] : List Char)))))) := by
    simp [c3TextL, c3Pre, c3Block2, tripleTick]
  have htake : (c3TextL u v).take (u.length + 34) = c3Pre u := by
    rw [e6]
    exact List.take_left' (c3Pre_length u)
  have hcond : strIn "```update:".data (lastSlice 50 (c3Pre u)) = true := by
    rw [c3Pre_window]
    exact strIn_append_right _ _ _ (by decide)
  simp only [classifyOp, hidx]
  rw [htake]
  simp [hcond]

/-- C3, counterexample.  Block classification is NOT per-block: (i) a block
whose header is `create:` is not matched by the block regex at all (the
alternation is `filename|update|read`), so a reply with a `create:` block
and an `update:` block yields only ONE operation; and (ii) the
reclassification window is anchored at the FIRST occurrence of the raw
path in the whole reply, so when the first block's body mentions the
second block's path, the second block inherits the first block's tag
(`create` instead of `update`) — the tag leaks across blocks. -/
theorem c3_block_classification_cex :
    extract_file_blocks "```create: a.py\npass\n```\n```update: b.py\npass\n```"
      = [("update", "b.py", "pass")]
    ∧ extract_file_blocks "```filename: a.py\nsee b.py\n```\n```update: b.py\nnew\n```"
      = [("create", "a.py", "see b.py"), ("create", "b.py", "new")] :=
  ⟨by decide, by decide⟩

/-- C3, amended.  For a reply with one `filename:` block for `a.py` and one
`update:` block for `b.py`, provided neither body contains a fence and the
first body does not mention `b.py`, `extract_file_blocks` returns exactly
two operations, in order of appearance, with correct tags and correct
path/content pairing (each content stripped of surrounding whitespace).
The provisos are necessary: a `create:` header is not recognised at all,
and a first body mentioning `b.py` makes the second block's tag leak to
`create`. -/
theorem c3_two_blocks (c1 c2 : String)
    (h1 : strInS "```" c1 = false) (h2 : strInS "```" c2 = false)
    (h3 : strInS "b.py" c1 = false) :
    extract_file_blocks
        ("```filename: a.py\n" ++ c1 ++ "\n```\n```update: b.py\n" ++ c2 ++ "\n```")
      = [("create", "a.py", pyStripS c1), ("update", "b.py", pyStripS c2)] := by
  have hu : strIn tripleTick c1.data = false := h1
  have hv : strIn tripleTick c2.data = false := h2
  have hdata : ("```filename: a.py\n" ++ c1 ++ "\n```\n```update: b.py\n" ++ c2
      ++ "\n```").data = c3TextL c1.data c2.data := by
    simp [c3TextL, c3Block2, tripleTick, String.data_append]
  obtain ⟨C1, C2, hfb, hsC1, hsC2⟩ := findBlocks_c3 c1.data c2.data hu hv
  have hsan1 : sanitizeFilePath "a.py".data = "a.py".data := by decide
  have hsan2 : sanitizeFilePath "b.py".data = "b.py".data := by decide
  have hca := classifyOp_c3_a c1.data c2.data
  have hcb := classifyOp_c3_b c1.data c2.data h3
  simp only [extract_file_blocks, hdata, hfb]
  simp [List.filterMap_cons, hsan1, hsan2, hca, hcb, hsC1, hsC2, pyStripS]

/-- C3, witness: the amended theorem at the concrete bodies `print(1)` and
`print(2)` — both fence-free, the first not mentioning `b.py` — yields the
two correctly tagged, correctly paired operations in order. -/
theorem c3_two_blocks_witness :
    strInS "```" "print(1)" = false ∧ strInS "```" "print(2)" = false
    ∧ strInS "b.py" "print(1)" = false
    ∧ extract_file_blocks
        ("```filename: a.py\n" ++ "print(1)" ++ "\n```\n```update: b.py\n"
          ++ "print(2)" ++ "\n```")
      = [("create", "a.py", pyStripS "print(1)"), ("update", "b.py", pyStripS "print(2)")] :=
  ⟨by decide, by decide, by decide,
    c3_two_blocks "print(1)" "print(2)" (by decide) (by decide) (by decide)⟩
